import Mathlib

/-!
Verification of the crystal search & highlight engine.

Shallow embedding of the text search feature:

* `searchUtils.ts` — ` escapeRegExp`, `createSearchRegex`, `extractTextContent`,
  `findTextMatches`, `highlightMatches`, `removeHighlights`;
* `useSearch.ts` — the navigation state machine (`performSearch`,
  `navigateToMatch`, `toggleCaseSensitive`, `toggleWholeWord`, `closeSearch`,
  `openSearch`);
* `useTerminalSearch.ts` — the terminal backend adapter's `onNavigate`.

Strings are modelled as `List Char`; DOM trees as an inductive `DomNode`;
the backend `onSearch` callback as an explicit function parameter.
-/

namespace Crystal

/-- Whitespace for the JS `String.prototype.trim` (the common code points). -/
def isJsWhitespace (c : Char) : Bool :=
  c = ' ' || c = '\t' || c = '\n' || c = '\r' || c = '\x0b' || c = '\x0c' ||
  c = Char.ofNat 0xa0 || c = Char.ofNat 0xfeff

/-- `s.trim()`: strip leading and trailing whitespace. -/
def jsTrim (s : List Char) : List Char :=
  ((s.dropWhile isJsWhitespace).reverse.dropWhile isJsWhitespace).reverse

/-- A `SearchMatch` record (useSearch.ts).  The `element` field (a DOM
reference) is dropped: all claims are about a single searched element. -/
structure SearchMatch where
  id : List Char
  text : List Char
  startIndex : Nat
  endIndex : Nat
deriving DecidableEq

/-- The `SearchState` record of useSearch.ts. -/
structure SearchState where
  isOpen : Bool
  query : List Char
  currentMatch : Nat
  totalMatches : Nat
  caseSensitive : Bool
  wholeWord : Bool
deriving DecidableEq

/-- The full state held by the `useSearch` hook: the `searchState` record
plus the `matches` array (a separate `useState`, here `matchList`: `matches`
is a reserved word in Lean). -/
structure HookState where
  searchState : SearchState
  matchList : List SearchMatch
deriving DecidableEq

/-- The initial hook state (both `useState` initialisers). -/
def initialHookState : HookState :=
  { searchState :=
      { isOpen := false, query := [], currentMatch := 0, totalMatches := 0,
        caseSensitive := false, wholeWord := false },
    matchList := [] }

/-- The `onSearch` backend callback: query, caseSensitive, wholeWord ↦ matches. -/
abbrev Backend := List Char → Bool → Bool → List SearchMatch

/-- `performSearch` (useSearch.ts).

`capturedCS` / `capturedWW` are the values of `searchState.caseSensitive` /
`searchState.wholeWord` captured by the `useCallback` closure at the render
that created this `performSearch`; the source reads them from its closed-over
`searchState`, not from the state current when the call runs.  The returned
`Bool` records whether the backend `onSearch` was invoked. -/
def performSearch (onSearch : Backend) (capturedCS capturedWW : Bool)
    (query : List Char) (st : HookState) : HookState × Bool :=
  if jsTrim query = [] then
    ({ st with
       matchList := []
       searchState := { st.searchState with
                        query := query, currentMatch := 0, totalMatches := 0 } },
     false)
  else
    let searchMatches := onSearch query capturedCS capturedWW
    ({ st with
       matchList := searchMatches
       searchState := { st.searchState with
                        query := query
                        currentMatch := if searchMatches.length > 0 then 1 else 0
                        totalMatches := searchMatches.length } },
     true)

/-- `setQuery` (useSearch.ts): runs `performSearch` with the current render's
option values captured in its closure. -/
def setQuery (onSearch : Backend) (query : List Char) (st : HookState) : HookState :=
  (performSearch onSearch st.searchState.caseSensitive st.searchState.wholeWord
    query st).1

/-- Search navigation direction. -/
inductive Direction where
  | next
  | prev
deriving DecidableEq

/-- `navigateToMatch` (useSearch.ts).  Early-returns when `matches` is empty;
otherwise computes the wrapped index and stores it.  The `onNavigate` side
effect does not touch the hook state. -/
def navigateToMatch (dir : Direction) (st : HookState) : HookState :=
  if st.matchList.length = 0 then st
  else
    let newIndex :=
      match dir with
      | Direction.next =>
          if st.searchState.currentMatch ≥ st.matchList.length then 1
          else st.searchState.currentMatch + 1
      | Direction.prev =>
          if st.searchState.currentMatch ≤ 1 then st.matchList.length
          else st.searchState.currentMatch - 1
    { st with searchState := { st.searchState with currentMatch := newIndex } }

/-- `openSearch` (useSearch.ts): only sets `isOpen` (focus is a side effect). -/
def openSearch (st : HookState) : HookState :=
  { st with searchState := { st.searchState with isOpen := true } }

/-- `closeSearch` (useSearch.ts): closes, clears query and counters, clears
the match array (the `onClose` side effect does not touch hook state). -/
def closeSearch (st : HookState) : HookState :=
  { st with
    matchList := []
    searchState := { st.searchState with
                     isOpen := false, query := [], currentMatch := 0,
                     totalMatches := 0 } }

/-- `toggleCaseSensitive` (useSearch.ts).  The updater flips the flag; when
the previous query is non-empty it schedules `performSearch(prev.query)` on a
timeout.  That `performSearch` is the closure from the render that created
this `toggleCaseSensitive` (its `useCallback` dependency), so the option
values it passes to the backend are the PRE-toggle `capturedCS`/`capturedWW`;
its own `setSearchState(prev => ...)` updater then applies on top of the
already-flipped state. -/
def toggleCaseSensitive (onSearch : Backend) (st : HookState) : HookState :=
  let flipped := { st with searchState :=
    { st.searchState with caseSensitive := !st.searchState.caseSensitive } }
  if st.searchState.query = [] then flipped
  else
    (performSearch onSearch st.searchState.caseSensitive st.searchState.wholeWord
      st.searchState.query flipped).1

/-- `toggleWholeWord` (useSearch.ts); same closure structure as
`toggleCaseSensitive`. -/
def toggleWholeWord (onSearch : Backend) (st : HookState) : HookState :=
  let flipped := { st with searchState :=
    { st.searchState with wholeWord := !st.searchState.wholeWord } }
  if st.searchState.query = [] then flipped
  else
    (performSearch onSearch st.searchState.caseSensitive st.searchState.wholeWord
      st.searchState.query flipped).1

/-- One user-visible operation on the search state machine. -/
inductive SearchOp where
  | opOpen
  | opClose
  | opSetQuery (q : List Char)
  | opNavigate (dir : Direction)
  | opToggleCase
  | opToggleWord

/-- Interpret one operation. -/
def stepOp (onSearch : Backend) (op : SearchOp) (st : HookState) : HookState :=
  match op with
  | SearchOp.opOpen => openSearch st
  | SearchOp.opClose => closeSearch st
  | SearchOp.opSetQuery q => setQuery onSearch q st
  | SearchOp.opNavigate dir => navigateToMatch dir st
  | SearchOp.opToggleCase => toggleCaseSensitive onSearch st
  | SearchOp.opToggleWord => toggleWholeWord onSearch st

/-- Run a sequence of operations from a state. -/
def runOps (onSearch : Backend) (ops : List SearchOp) (st : HookState) : HookState :=
  match ops with
  | [] => st
  | op :: rest => runOps onSearch rest (stepOp onSearch op st)

/-- The spec's navigation-state invariant, plus the glue fact
`totalMatches = matches.length` that ties the two `useState`s together. -/
def StateOk (st : HookState) : Prop :=
  st.searchState.totalMatches = st.matchList.length ∧
  (0 < st.searchState.totalMatches →
    1 ≤ st.searchState.currentMatch ∧
    st.searchState.currentMatch ≤ st.searchState.totalMatches) ∧
  (st.searchState.currentMatch = 0 ↔ st.searchState.totalMatches = 0)

/-- The "next" index map of `navigateToMatch` as a function on the 1-based
counter, for a match list of length `len`. -/
def wrapNext (len c : Nat) : Nat := if c ≥ len then 1 else c + 1

/-- The "prev" index map of `navigateToMatch`. -/
def wrapPrev (len c : Nat) : Nat := if c ≤ 1 then len else c - 1

/-- A concrete match record (for concrete evaluations). -/
def demoMatch : SearchMatch :=
  { id := ['d', '-', '0'], text := ['a'], startIndex := 0, endIndex := 1 }

/-- A second concrete match record. -/
def demoMatch2 : SearchMatch :=
  { id := ['d', '-', '1'], text := ['a'], startIndex := 2, endIndex := 3 }

/-- A concrete backend over the text "a": the query "A" matches once when
case-insensitive (`caseSensitive = false`) and never when case-sensitive. -/
def demoCaseBackend : Backend := fun q cs _ =>
  if q = ['A'] && !cs then [demoMatch] else []

/-- A concrete hook state: open, query "A" active under
`caseSensitive = false`, one match found. -/
def demoState : HookState :=
  { searchState :=
      { isOpen := true, query := ['A'], currentMatch := 1, totalMatches := 1,
        caseSensitive := false, wholeWord := false },
    matchList := [demoMatch] }

/-- A concrete hook state with two matches, current index 1. -/
def demoNavState : HookState :=
  { searchState :=
      { isOpen := true, query := ['a'], currentMatch := 1, totalMatches := 2,
        caseSensitive := false, wholeWord := false },
    matchList := [demoMatch, demoMatch2] }

/-- One delegated call to the terminal widget's `findNext`/`findPrevious`
(useTerminalSearch.ts), with the option object passed to it. -/
structure TerminalFindCall where
  direction : Direction
  pattern : List Char
  caseSensitive : Bool
  wholeWord : Bool
  regex : Bool
deriving DecidableEq

/-- The `onNavigate` callback of useTerminalSearch.ts, returning the
delegated call it makes (or `none` when it early-returns).  `activeCS` and
`activeWW` are the hook's live search options; the source callback is a
`useCallback` with an empty dependency list whose body mentions neither, so
they are (faithfully) unused here.  The source passes the literal option
object `{ caseSensitive: false, wholeWord: false, regex: false }` to both
`findNext` and `findPrevious`. -/
def terminalOnNavigate (activeCS activeWW : Bool) (addonPresent : Bool)
    (m : Option SearchMatch) (dir : Direction) : Option TerminalFindCall :=
  match addonPresent, m with
  | false, _ => none
  | true, none => none
  | true, some mm =>
      match dir with
      | Direction.next =>
          some { direction := Direction.next, pattern := mm.text,
                 caseSensitive := false, wholeWord := false, regex := false }
      | Direction.prev =>
          some { direction := Direction.prev, pattern := mm.text,
                 caseSensitive := false, wholeWord := false, regex := false }

/-- The "next"/"prev" index map chosen by the direction. -/
def wrapFor (dir : Direction) (len : Nat) : Nat → Nat :=
  match dir with
  | Direction.next => wrapNext len
  | Direction.prev => wrapPrev len

/-! ## The pattern builder and matcher (searchUtils.ts) -/

/-- The `SearchOptions` record (searchUtils.ts). -/
structure SearchOptions where
  caseSensitive : Bool
  wholeWord : Bool
deriving DecidableEq

/-- The characters replaced by `escapeRegExp`'s character class
`[.*+?^$\x7b\x7d()|[\]\\]`. -/
def isRegexSpecial (c : Char) : Bool :=
  c = '.' || c = '*' || c = '+' || c = '?' || c = '^' || c = '$' ||
  c = '\x7b' || c = '\x7d' || c = '(' || c = ')' || c = '|' ||
  c = '[' || c = ']' || c = '\\'

/-- `escapeRegExp` (searchUtils.ts): `string.replace(/[...]/g, backslash-dollar-amp)`
prefixes every special character with a backslash. -/
def escapeRegExp (s : List Char) : List Char :=
  s.flatMap (fun c => if isRegexSpecial c then ['\\', c] else [c])

/-- A compiled JS regex as built by `createSearchRegex`: the pattern source
and whether the `i` flag is present (the `g` flag is the exec loop itself,
modelled in `findTextMatchesLoop`). -/
structure JsRegex where
  pattern : List Char
  ignoreCase : Bool
deriving DecidableEq

/-- `createSearchRegex` (searchUtils.ts): escape the query, wrap it in
word-boundary assertions when `wholeWord` is set, and add the `i` flag
exactly when `caseSensitive` is false. -/
def createSearchRegex (query : List Char) (opts : SearchOptions) : JsRegex :=
  let pattern := escapeRegExp query
  let pattern :=
    if opts.wholeWord then '\\' :: 'b' :: pattern ++ ['\\', 'b'] else pattern
  { pattern := pattern, ignoreCase := !opts.caseSensitive }

/-- Tokens of the JS regex fragment our interpreter supports: literal
characters, `.`, `X*`, and the word-boundary assertion `\b`. -/
inductive RegexTok where
  | lit (c : Char)
  | dot
  | star (t : RegexTok)
  | wordB
deriving DecidableEq

/-- Unescaped pattern metacharacters other than `.` and `*`; the
interpreter rejects patterns containing them (escaped patterns never do). -/
def isUnsupportedMeta (c : Char) : Bool :=
  c = '+' || c = '?' || c = '^' || c = '$' || c = '|' ||
  c = '(' || c = ')' || c = '[' || c = ']' || c = '\x7b' || c = '\x7d'

/-- Parse a JS pattern source into tokens (accumulator is reversed).
`\b` is a word boundary; a backslash before a letter or digit is some other
class or backreference (unsupported → `none`); a backslash before anything
else makes that character literal; a bare `.` is the any-char token; a bare
`*` applies to the previous literal or `.`. -/
def parseRegexToks : List Char → List RegexTok → Option (List RegexTok)
  | [], acc => some acc.reverse
  | c :: rest, acc =>
      if c = '\\' then
        match rest with
        | [] => none
        | e :: rest' =>
            if e = 'b' then parseRegexToks rest' (RegexTok.wordB :: acc)
            else if e.isAlpha || e.isDigit then none
            else parseRegexToks rest' (RegexTok.lit e :: acc)
      else if c = '.' then parseRegexToks rest (RegexTok.dot :: acc)
      else if c = '*' then
        match acc with
        | RegexTok.lit d :: acc' =>
            parseRegexToks rest (RegexTok.star (RegexTok.lit d) :: acc')
        | RegexTok.dot :: acc' =>
            parseRegexToks rest (RegexTok.star RegexTok.dot :: acc')
        | _ => none
      else if isUnsupportedMeta c then none
      else parseRegexToks rest (RegexTok.lit c :: acc)

/-- Case canonicalisation used when the `i` flag is set. -/
def foldChar (ignoreCase : Bool) (c : Char) : Char :=
  if ignoreCase then c.toLower else c

/-- Character comparison under the optional `i` flag. -/
def charMatches (ic : Bool) (p c : Char) : Bool :=
  foldChar ic p = foldChar ic c

/-- JS `\w` for the purpose of `\b`: `[A-Za-z0-9_]`. -/
def isWordChar (c : Char) : Bool :=
  ('a' ≤ c && c ≤ 'z') || ('A' ≤ c && c ≤ 'Z') || ('0' ≤ c && c ≤ '9') ||
  c = '_'

/-- JS word boundary between an optional previous and next character
(ends of the string count as non-word). -/
def isBoundary (prev next : Option Char) : Bool :=
  (match prev with | none => false | some c => isWordChar c) !=
  (match next with | none => false | some c => isWordChar c)

/-- Whether one non-assertion token matches one character. -/
def matchOne (ic : Bool) (t : RegexTok) (c : Char) : Bool :=
  match t with
  | RegexTok.lit p => charMatches ic p c
  | RegexTok.dot =>
      !(c = '\n' || c = '\r' || c = Char.ofNat 0x2028 || c = Char.ofNat 0x2029)
  | _ => false

/-- Match a token list against a prefix of `rest` (with `prev` the character
just before `rest`, for `\b`), returning the number of characters the match
consumes, with JS leftmost-greedy backtracking for `*`. -/
def matchToks (ic : Bool) : List RegexTok → Option Char → List Char → Option Nat
  | [], _, _ => some 0
  | RegexTok.lit p :: ts, _, c :: rest =>
      if charMatches ic p c then (matchToks ic ts (some c) rest).map (· + 1)
      else none
  | RegexTok.lit _ :: _, _, [] => none
  | RegexTok.dot :: ts, _, c :: rest =>
      if matchOne ic RegexTok.dot c then (matchToks ic ts (some c) rest).map (· + 1)
      else none
  | RegexTok.dot :: _, _, [] => none
  | RegexTok.wordB :: ts, prev, rest =>
      if isBoundary prev rest.head? then matchToks ic ts prev rest else none
  | RegexTok.star t :: ts, prev, rest =>
      match rest with
      | [] => matchToks ic ts prev []
      | c :: rest' =>
          if matchOne ic t c then
            match matchToks ic (RegexTok.star t :: ts) (some c) rest' with
            | some n => some (n + 1)
            | none => matchToks ic ts prev (c :: rest')
          else matchToks ic ts prev (c :: rest')
termination_by ts prev rest => (rest.length, ts.length)

/-- The character just before position `i` (none at the start). -/
def prevCharAt (text : List Char) (i : Nat) : Option Char :=
  if i = 0 then none else text.get? (i - 1)

/-- The previous-character state after consuming `k` characters of `rest`
(used to state how token lists compose). -/
def shiftPrev (prev : Option Char) (k : Nat) (rest : List Char) : Option Char :=
  if k = 0 then prev else rest.get? (k - 1)

/-- Whether a token list matches at position `i` of `text`; returns the
length consumed. -/
def matchToksAt (ic : Bool) (toks : List RegexTok) (text : List Char)
    (i : Nat) : Option Nat :=
  matchToks ic toks (prevCharAt text i) (text.drop i)

/-- `regex.exec` from position `start`: the first position `i ≥ start`
(up to and including `text.length`) where the pattern matches, with the
consumed length. -/
def execFindAux (ic : Bool) (toks : List RegexTok) (text : List Char) :
    Nat → Nat → Option (Nat × Nat)
  | _, 0 => none
  | i, fuel + 1 =>
      match matchToksAt ic toks text i with
      | some len => some (i, len)
      | none => execFindAux ic toks text (i + 1) fuel

/-- `regex.exec(text)` with `lastIndex = start` (with the `g` flag): `none`
when `start > text.length` or no match exists at or after `start`. -/
def execFind (ic : Bool) (toks : List RegexTok) (text : List Char)
    (start : Nat) : Option (Nat × Nat) :=
  execFindAux ic toks text start (text.length + 1 - start)

/-- Matching at a position under a compiled `JsRegex` (parse, then match). -/
def regexMatchAt (re : JsRegex) (text : List Char) (i : Nat) : Option Nat :=
  match parseRegexToks re.pattern [] with
  | none => none
  | some toks => matchToksAt re.ignoreCase toks text i

/-- The token list `createSearchRegex` compiles to: the query's characters
as literals, wrapped in `\b` when `wholeWord` is set (proved below). -/
def expectedToks (query : List Char) (opts : SearchOptions) : List RegexTok :=
  if opts.wholeWord then
    RegexTok.wordB :: (query.map RegexTok.lit ++ [RegexTok.wordB])
  else query.map RegexTok.lit

/-- The word boundary test of `\b` at flat position `j` of `text`. -/
def boundaryAt (text : List Char) (j : Nat) : Bool :=
  isBoundary (prevCharAt text j) (text.get? j)

/-- A literal occurrence of `query` at position `i` of `text`, in the sense
of the specification: the next `query.length` characters equal the query up
to the case folding selected by `caseSensitive`, and both ends fall on word
boundaries when `wholeWord` is set. -/
def literalOccursAt (query : List Char) (opts : SearchOptions)
    (text : List Char) (i : Nat) : Bool :=
  let ic := !opts.caseSensitive
  decide (((text.drop i).take query.length).map (foldChar ic) =
    query.map (foldChar ic)) &&
  (!opts.wholeWord ||
    (boundaryAt text i && boundaryAt text (i + query.length)))

/-- The `findTextMatches` exec loop (searchUtils.ts), with explicit fuel:
repeatedly `exec` from the cursor; record each match (id
`elementId-<count>`, matched text, span); the cursor moves to the match
end, bumped one further on a zero-length match
(`if (match.index === regex.lastIndex) regex.lastIndex++`). -/
def findTextMatchesLoop (ic : Bool) (toks : List RegexTok)
    (text elementId : List Char) :
    Nat → Nat → List SearchMatch → List SearchMatch
  | _, 0, acc => acc.reverse
  | lastIndex, fuel + 1, acc =>
      match execFind ic toks text lastIndex with
      | none => acc.reverse
      | some (idx, len) =>
          let m : SearchMatch :=
            { id := elementId ++ '-' :: (Nat.repr acc.length).data
              text := (text.drop idx).take len
              startIndex := idx
              endIndex := idx + len }
          let newLast := idx + len
          let newLast := if idx = newLast then newLast + 1 else newLast
          findTextMatchesLoop ic toks text elementId newLast fuel (m :: acc)

/-- `findTextMatches` on an already-flattened text, with explicit fuel for
the exec loop (`findTextMatchesText` below instantiates the fuel that the
termination theorem proves sufficient). -/
def findTextMatchesTextFuel (text query : List Char) (opts : SearchOptions)
    (elementId : List Char) (fuel : Nat) : List SearchMatch :=
  let re := createSearchRegex query opts
  match parseRegexToks re.pattern [] with
  | none => []
  | some toks => findTextMatchesLoop re.ignoreCase toks text elementId 0 fuel []

/-- `findTextMatches` on a flattened text: the loop needs at most
`text.length + 2` iterations. -/
def findTextMatchesText (text query : List Char) (opts : SearchOptions)
    (elementId : List Char) : List SearchMatch :=
  findTextMatchesTextFuel text query opts elementId (text.length + 2)

/-! ## The DOM model and the highlight renderer (searchUtils.ts) -/

/-- A DOM node as the highlight renderer sees it: a text node, a generic
element (tag and children), or a search-highlight span
(`<span class="search-highlight" data-search-match=matchId>`, carrying the
`search-highlight-current` class when `isCurrent`). -/
inductive DomNode where
  | text (s : List Char)
  | elem (tag : List Char) (children : List DomNode)
  | mark (matchId : List Char) (isCurrent : Bool) (children : List DomNode)

mutual

def flatText : DomNode → List Char
  | DomNode.text s => s
  | DomNode.elem _ cs => flatTextList cs
  | DomNode.mark _ _ cs => flatTextList cs

def flatTextList : List DomNode → List Char
  | [] => []
  | n :: ns => flatText n ++ flatTextList ns

end

/-- Whether a node is a `.search-highlight` span. -/
def isMark : DomNode → Bool
  | DomNode.mark _ _ _ => true
  | _ => false

mutual

def markFreeNode : DomNode → Bool
  | DomNode.text _ => true
  | DomNode.elem _ cs => markFreeList cs
  | DomNode.mark _ _ _ => false

def markFreeList : List DomNode → Bool
  | [] => true
  | n :: ns => markFreeNode n && markFreeList ns

end

mutual

def markIdsNode : DomNode → List (List Char)
  | DomNode.text _ => []
  | DomNode.elem _ cs => markIdsList cs
  | DomNode.mark id _ cs => id :: markIdsList cs

def markIdsList : List DomNode → List (List Char)
  | [] => []
  | n :: ns => markIdsNode n ++ markIdsList ns

end

mutual

def leafSpansNode : DomNode → Nat → List (Nat × Nat)
  | DomNode.text s, off => [(off, s.length)]
  | DomNode.elem _ cs, off => leafSpansList cs off
  | DomNode.mark _ _ cs, off => leafSpansList cs off

def leafSpansList : List DomNode → Nat → List (Nat × Nat)
  | [], _ => []
  | n :: ns, off => leafSpansNode n off ++ leafSpansList ns (off + (flatText n).length)

end

/-- Whether a match's span lies within the leaf span `p = (start, length)`. -/
def withinSpan (m : SearchMatch) (p : Nat × Nat) : Bool :=
  p.1 ≤ m.startIndex && m.endIndex ≤ p.1 + p.2

/-- Whether a match's span lies entirely within one of the element's text
leaves (walker order, offsets from 0). -/
def withinSomeLeafList (children : List DomNode) (m : SearchMatch) : Bool :=
  (leafSpansList children 0).any (fun p => withinSpan m p)

/-- JS `String.prototype.substring`: clamps both indices to the string
length and swaps them when the start exceeds the end. -/
def jsSubstring (s : List Char) (a b : Nat) : List Char :=
  let a' := min a s.length
  let b' := min b s.length
  (s.take (max a' b')).drop (min a' b')

/-- Merge adjacent text nodes and drop empty ones (the text-node part of
DOM `Node.normalize()`) in one children list. -/
def mergeAdjacent : List DomNode → List DomNode
  | [] => []
  | DomNode.text s :: rest =>
      match mergeAdjacent rest with
      | DomNode.text s2 :: rest' =>
          if s ++ s2 = [] then rest' else DomNode.text (s ++ s2) :: rest'
      | rest' => if s = [] then rest' else DomNode.text s :: rest'
  | n :: rest => n :: mergeAdjacent rest

mutual

def normalizeNode : DomNode → DomNode
  | DomNode.text s => DomNode.text s
  | DomNode.elem t cs => DomNode.elem t (mergeAdjacent (normalizeListAux cs))
  | DomNode.mark id c cs => DomNode.mark id c (mergeAdjacent (normalizeListAux cs))

def normalizeListAux : List DomNode → List DomNode
  | [] => []
  | n :: ns => normalizeNode n :: normalizeListAux ns

end

/-- DOM `Node.normalize()` on a children list: normalize the whole
subtree. -/
def normalizeList (ns : List DomNode) : List DomNode :=
  mergeAdjacent (normalizeListAux ns)

mutual

def remHNode : DomNode → DomNode
  | DomNode.text s => DomNode.text s
  | DomNode.elem t cs => DomNode.elem t (remHList cs)
  | DomNode.mark _ _ cs => DomNode.text (flatTextList cs)

def remHList : List DomNode → List DomNode
  | [] => []
  | n :: ns => remHNode n :: remHList ns

end

mutual

/-- `removeHighlights` (searchUtils.ts), recursively: every
`.search-highlight` span is replaced by a text node holding its
`textContent`, and each direct parent of a replaced span has its subtree
normalized (`parent.normalize()`); children lists without a direct
highlight child are not normalized. -/
def removeHighlightsNode : DomNode → DomNode
  | DomNode.text s => DomNode.text s
  | DomNode.elem t cs =>
      DomNode.elem t
        (if cs.any isMark then normalizeList (remHList cs)
         else removeHighlightsListAux cs)
  | DomNode.mark _ _ cs => DomNode.text (flatTextList cs)

def removeHighlightsListAux : List DomNode → List DomNode
  | [] => []
  | n :: ns => removeHighlightsNode n :: removeHighlightsListAux ns

end

/-- `removeHighlights` applied to the searched element's children list
(the element itself is the query root and is never a highlight). -/
def removeHighlightsList (cs : List DomNode) : List DomNode :=
  if cs.any isMark then normalizeList (remHList cs)
  else removeHighlightsListAux cs

/-- The comparator `(a, b) => b.startIndex - a.startIndex`: `a` sorts
no later than `b` when `b.startIndex ≤ a.startIndex`. -/
def matchGE (a b : SearchMatch) : Prop := b.startIndex ≤ a.startIndex

instance : DecidableRel matchGE := fun _ _ => Nat.decLe _ _

instance : IsTotal SearchMatch matchGE :=
  ⟨fun a b => Nat.le_total b.startIndex a.startIndex⟩

instance : IsTrans SearchMatch matchGE :=
  ⟨fun _ _ _ hab hbc => Nat.le_trans hbc hab⟩

/-- The stable descending sort by `startIndex` performed by
`[...matches].sort((a, b) => b.startIndex - a.startIndex)` (JS sort is
stable; a stable sort is insertion sort by the comparator's preorder). -/
def sortByStartDesc (ms : List SearchMatch) : List SearchMatch :=
  List.insertionSort matchGE ms

/-- The `search-highlight-current` test:
`matches.findIndex(m => m.id === match.id) === currentMatchIndex`
(`currentMatchIndex` is the optional third argument; `findIndex` misses
give JS `-1`, which never equals the `Nat` index). -/
def isCurrentFlag (ms : List SearchMatch) (cur : Option Nat)
    (m : SearchMatch) : Bool :=
  match cur with
  | none => false
  | some ci =>
      match ms.findIdx? (fun x => x.id == m.id) with
      | none => false
      | some k => k = ci

mutual

/-- The per-text-node body of the `highlightMatches` walker loop
(searchUtils.ts): with `off` the running flat offset, a text node whose
offset range contains at least one whole match is replaced by
`[beforeText?, highlight-span, afterText?]` built from the first match in
ascending order of the node's filtered, descending-sorted match list (the
loop `break`s after one match); empty before/after fragments are not
inserted.  Other nodes recurse into their children.  Returns the
replacement nodes and the advanced offset. -/
def applyNode (sorted ms : List SearchMatch) (cur : Option Nat) :
    DomNode → Nat → List DomNode × Nat
  | DomNode.text s, off =>
      let nodeStart := off
      let nodeEnd := off + s.length
      let nodeMatches := (sorted.filter (fun m =>
          nodeStart ≤ m.startIndex && m.endIndex ≤ nodeEnd)).reverse
      match nodeMatches.head? with
      | none => ([DomNode.text s], nodeEnd)
      | some m =>
          let relStart := m.startIndex - nodeStart
          let relEnd := m.endIndex - nodeStart
          let beforeText := jsSubstring s 0 relStart
          let matchText := jsSubstring s relStart relEnd
          let afterText := jsSubstring s relEnd s.length
          ((if beforeText = [] then [] else [DomNode.text beforeText]) ++
           DomNode.mark m.id (isCurrentFlag ms cur m) [DomNode.text matchText] ::
           (if afterText = [] then [] else [DomNode.text afterText]),
           nodeEnd)
  | DomNode.elem t cs, off =>
      let r := applyNodes sorted ms cur cs off
      ([DomNode.elem t r.1], r.2)
  | DomNode.mark id c cs, off =>
      let r := applyNodes sorted ms cur cs off
      ([DomNode.mark id c r.1], r.2)

def applyNodes (sorted ms : List SearchMatch) (cur : Option Nat) :
    List DomNode → Nat → List DomNode × Nat
  | [], off => ([], off)
  | n :: ns, off =>
      let rn := applyNode sorted ms cur n off
      let rns := applyNodes sorted ms cur ns rn.2
      (rn.1 ++ rns.1, rns.2)

end

/-- `highlightMatches` (searchUtils.ts) on an element with the given tag
and children: remove existing highlights, stop there if the match list is
empty, otherwise walk the text nodes with a running offset and decorate. -/
def highlightMatches (tag : List Char) (children : List DomNode)
    (ms : List SearchMatch) (cur : Option Nat) : DomNode :=
  let cleaned := removeHighlightsList children
  if ms.length = 0 then DomNode.elem tag cleaned
  else DomNode.elem tag (applyNodes (sortByStartDesc ms) ms cur cleaned 0).1

/-- A match on the first "a" of the text "abab" (or "ab ab"). -/
def cexMatch1 : SearchMatch :=
  { id := ['m', '1'], text := ['a'], startIndex := 0, endIndex := 1 }

/-- A match on the second "a" (offset 2). -/
def cexMatch2 : SearchMatch :=
  { id := ['m', '2'], text := ['a'], startIndex := 2, endIndex := 3 }

/-- A single text node "abab": both `cexMatch1` and `cexMatch2` lie within
this one leaf. -/
def cexTree : List DomNode := [DomNode.text ['a', 'b', 'a', 'b']]

/-- Two leaves "ab" and "ab" (the second inside a span): `cexMatch1` lies in
the first, `cexMatch2` in the second. -/
def witTree : List DomNode :=
  [DomNode.text ['a', 'b'], DomNode.elem ['s'] [DomNode.text ['a', 'b']]]

/-- A match spanning offsets 1 to 3 of the flat text: it crosses the leaf
boundary of `witTree` (and of two adjacent "ab" text nodes). -/
def crossMatch : SearchMatch :=
  { id := ['m', 'c'], text := ['b', 'a'], startIndex := 1, endIndex := 3 }

theorem wrapFor_next (len : Nat) : wrapFor Direction.next len = wrapNext len := rfl

theorem wrapFor_prev (len : Nat) : wrapFor Direction.prev len = wrapPrev len := rfl

/-! ## Lemmas about the navigation state machine -/

theorem navigateToMatch_matchList (dir : Direction) (st : HookState) :
    (navigateToMatch dir st).matchList = st.matchList := by
  unfold navigateToMatch
  split <;> rfl

theorem navigateToMatch_totalMatches (dir : Direction) (st : HookState) :
    (navigateToMatch dir st).searchState.totalMatches =
      st.searchState.totalMatches := by
  unfold navigateToMatch
  split <;> rfl

theorem navigateToMatch_currentMatch (dir : Direction) (st : HookState)
    (h : st.matchList.length ≠ 0) :
    (navigateToMatch dir st).searchState.currentMatch =
      wrapFor dir st.matchList.length st.searchState.currentMatch := by
  unfold navigateToMatch wrapFor wrapNext wrapPrev
  rw [if_neg h]
  cases dir <;> rfl

theorem navigate_iterate (dir : Direction) (st : HookState) (k : Nat)
    (h : st.matchList.length ≠ 0) :
    ((navigateToMatch dir)^[k] st).matchList = st.matchList ∧
    ((navigateToMatch dir)^[k] st).searchState.currentMatch =
      (wrapFor dir st.matchList.length)^[k] st.searchState.currentMatch := by
  induction k with
  | zero => exact ⟨rfl, rfl⟩
  | succ k ih =>
      obtain ⟨ih1, ih2⟩ := ih
      rw [Function.iterate_succ_apply', Function.iterate_succ_apply']
      refine ⟨?_, ?_⟩
      · rw [navigateToMatch_matchList, ih1]
      · rw [navigateToMatch_currentMatch dir _ (by rw [ih1]; exact h), ih1, ih2]

theorem wrapNext_iterate_aux (N : Nat) :
    ∀ k, k < N → (wrapNext N)^[k] 1 = k + 1 := by
  intro k
  induction k with
  | zero => intro _; rfl
  | succ k ih =>
      intro hk
      rw [Function.iterate_succ_apply', ih (Nat.lt_of_succ_lt hk)]
      unfold wrapNext
      rw [if_neg (by omega)]

theorem wrapNext_iterate (N : Nat) (hN : 0 < N) : (wrapNext N)^[N] 1 = 1 := by
  obtain ⟨m, rfl⟩ : ∃ m, N = m + 1 := ⟨N - 1, by omega⟩
  cases Nat.eq_zero_or_pos m with
  | inl h0 => subst h0; rfl
  | inr hm =>
      rw [Function.iterate_succ_apply', wrapNext_iterate_aux (m + 1) m (by omega)]
      unfold wrapNext
      rw [if_pos (by omega)]

theorem wrapPrev_iterate_aux (N : Nat) :
    ∀ k, k ≤ N - 1 → (wrapPrev N)^[k] N = N - k := by
  intro k
  induction k with
  | zero => intro _; simp
  | succ k ih =>
      intro hk
      rw [Function.iterate_succ_apply', ih (by omega)]
      unfold wrapPrev
      rw [if_neg (by omega)]
      omega

theorem wrapPrev_iterate (N : Nat) (hN : 0 < N) : (wrapPrev N)^[N] 1 = 1 := by
  obtain ⟨m, rfl⟩ : ∃ m, N = m + 1 := ⟨N - 1, by omega⟩
  rw [Function.iterate_succ_apply]
  have h1 : wrapPrev (m + 1) 1 = m + 1 := by
    unfold wrapPrev
    rw [if_pos (by omega)]
  rw [h1, wrapPrev_iterate_aux (m + 1) m (by omega)]
  omega

/-- C4: with `N = totalMatches = |matches| > 0` and `1 ≤ currentMatch ≤ N`,
`navigateToMatch` follows the wraparound rule (next: `N ↦ 1`, otherwise
`+1`; prev: `1 ↦ N`, otherwise `−1`); iterating "next" (resp. "prev") `N`
times from `currentMatch = 1` returns the counter to `1`; and with an empty
match list `navigateToMatch` is a no-op. -/
theorem claim_C4_navigation_wraparound (st : HookState) (N : Nat)
    (hlen : st.matchList.length = N) (htm : st.searchState.totalMatches = N)
    (hN : 0 < N) (h1 : 1 ≤ st.searchState.currentMatch)
    (h2 : st.searchState.currentMatch ≤ N) :
    ((navigateToMatch Direction.next st).searchState.currentMatch =
       if st.searchState.currentMatch = N then 1
       else st.searchState.currentMatch + 1) ∧
    ((navigateToMatch Direction.prev st).searchState.currentMatch =
       if st.searchState.currentMatch = 1 then N
       else st.searchState.currentMatch - 1) ∧
    (((navigateToMatch Direction.next)^[N]
        { st with searchState := { st.searchState with currentMatch := 1 } }
      ).searchState.currentMatch = 1) ∧
    (((navigateToMatch Direction.prev)^[N]
        { st with searchState := { st.searchState with currentMatch := 1 } }
      ).searchState.currentMatch = 1) ∧
    (∀ st' : HookState, ∀ dir : Direction,
       st'.matchList = [] → navigateToMatch dir st' = st') := by
  have hne : st.matchList.length ≠ 0 := by omega
  refine ⟨?_, ?_, ?_, ?_, ?_⟩
  · rw [navigateToMatch_currentMatch Direction.next st hne, wrapFor_next]
    unfold wrapNext
    split <;> split <;> omega
  · rw [navigateToMatch_currentMatch Direction.prev st hne, wrapFor_prev]
    unfold wrapPrev
    split <;> split <;> omega
  · have h := navigate_iterate Direction.next
      { st with searchState := { st.searchState with currentMatch := 1 } } N hne
    rw [h.2]
    show (wrapFor Direction.next st.matchList.length)^[N] 1 = 1
    rw [wrapFor_next, hlen]
    exact wrapNext_iterate N hN
  · have h := navigate_iterate Direction.prev
      { st with searchState := { st.searchState with currentMatch := 1 } } N hne
    rw [h.2]
    show (wrapFor Direction.prev st.matchList.length)^[N] 1 = 1
    rw [wrapFor_prev, hlen]
    exact wrapPrev_iterate N hN
  · intro st' dir h
    unfold navigateToMatch
    rw [if_pos (by rw [h]; rfl)]

/-- Witness for C4 at a concrete two-match state. -/
theorem claim_C4_witness :
    (demoNavState.matchList.length = 2 ∧
     demoNavState.searchState.totalMatches = 2 ∧ 0 < 2 ∧
     1 ≤ demoNavState.searchState.currentMatch ∧
     demoNavState.searchState.currentMatch ≤ 2) ∧
    (((navigateToMatch Direction.next demoNavState).searchState.currentMatch =
       if demoNavState.searchState.currentMatch = 2 then 1
       else demoNavState.searchState.currentMatch + 1) ∧
    ((navigateToMatch Direction.prev demoNavState).searchState.currentMatch =
       if demoNavState.searchState.currentMatch = 1 then 2
       else demoNavState.searchState.currentMatch - 1) ∧
    (((navigateToMatch Direction.next)^[2]
        { demoNavState with searchState :=
            { demoNavState.searchState with currentMatch := 1 } }
      ).searchState.currentMatch = 1) ∧
    (((navigateToMatch Direction.prev)^[2]
        { demoNavState with searchState :=
            { demoNavState.searchState with currentMatch := 1 } }
      ).searchState.currentMatch = 1) ∧
    (∀ st' : HookState, ∀ dir : Direction,
       st'.matchList = [] → navigateToMatch dir st' = st')) :=
  ⟨by refine ⟨by decide, by decide, by decide, by decide, by decide⟩,
   claim_C4_navigation_wraparound demoNavState 2 (by decide) (by decide)
     (by decide) (by decide) (by decide)⟩

/-! ## The state invariant -/

theorem stateOk_performSearch (b : Backend) (cs ww : Bool) (q : List Char)
    (st : HookState) : StateOk (performSearch b cs ww q st).1 := by
  unfold performSearch StateOk
  split
  · simp
  · simp only []
    by_cases hl : 0 < (b q cs ww).length
    · simp [hl]
      exact ⟨hl, List.ne_nil_of_length_pos hl⟩
    · simp [hl]
      exact List.length_eq_zero.mp (by omega)

theorem stateOk_step (b : Backend) (op : SearchOp) (st : HookState)
    (h : StateOk st) : StateOk (stepOp b op st) := by
  cases op with
  | opOpen => exact h
  | opClose => simp [stepOp, closeSearch, StateOk]
  | opSetQuery q => exact stateOk_performSearch b _ _ q st
  | opNavigate dir =>
      obtain ⟨htm, hrange, hiff⟩ := h
      by_cases hl : st.matchList.length = 0
      · have : stepOp b (SearchOp.opNavigate dir) st = st := by
          show navigateToMatch dir st = st
          unfold navigateToMatch
          rw [if_pos hl]
        rw [this]
        exact ⟨htm, hrange, hiff⟩
      · refine ⟨?_, ?_, ?_⟩ <;>
          rw [show stepOp b (SearchOp.opNavigate dir) st = navigateToMatch dir st
              from rfl]
        · rw [navigateToMatch_totalMatches, navigateToMatch_matchList]
          exact htm
        · rw [navigateToMatch_totalMatches,
              navigateToMatch_currentMatch dir st hl]
          cases dir
          · rw [wrapFor_next]; unfold wrapNext; split <;> omega
          · rw [wrapFor_prev]; unfold wrapPrev; split <;> omega
        · rw [navigateToMatch_totalMatches,
              navigateToMatch_currentMatch dir st hl]
          cases dir
          · rw [wrapFor_next]; unfold wrapNext; split <;> omega
          · rw [wrapFor_prev]; unfold wrapPrev; split <;> omega
  | opToggleCase =>
      show StateOk (toggleCaseSensitive b st)
      unfold toggleCaseSensitive
      split
      · exact h
      · exact stateOk_performSearch b _ _ _ _
  | opToggleWord =>
      show StateOk (toggleWholeWord b st)
      unfold toggleWholeWord
      split
      · exact h
      · exact stateOk_performSearch b _ _ _ _

/-- C5: after every sequence of open/setQuery/navigate/toggle/close
operations from the initial state, `1 ≤ currentMatch ≤ totalMatches`
whenever `totalMatches > 0`, and `currentMatch = 0` iff
`totalMatches = 0`. -/
theorem claim_C5_state_invariant (onSearch : Backend) (ops : List SearchOp) :
    StateOk (runOps onSearch ops initialHookState) := by
  have gen : ∀ st : HookState, StateOk st → StateOk (runOps onSearch ops st) := by
    induction ops with
    | nil => intro st h; exact h
    | cons op rest ih =>
        intro st h
        exact ih _ (stateOk_step onSearch op st h)
  exact gen initialHookState (by simp [initialHookState, StateOk])

/-! ## Empty-after-trim queries (C9) -/

/-- C9: a query that trims to empty short-circuits: `performSearch` does not
invoke the backend (the returned flag is `false`), clears the match list and
resets `currentMatch`/`totalMatches` to 0; `setQuery` does the same to the
state. -/
theorem claim_C9_empty_query_short_circuit (onSearch : Backend)
    (capturedCS capturedWW : Bool) (q : List Char) (st : HookState)
    (h : jsTrim q = []) :
    performSearch onSearch capturedCS capturedWW q st =
      ({ st with
         matchList := []
         searchState := { st.searchState with
                          query := q, currentMatch := 0, totalMatches := 0 } },
       false) ∧
    setQuery onSearch q st =
      { st with
        matchList := []
        searchState := { st.searchState with
                         query := q, currentMatch := 0, totalMatches := 0 } } := by
  constructor
  · unfold performSearch
    rw [if_pos h]
  · unfold setQuery performSearch
    rw [if_pos h]

/-- Witness for C9 at the two-space query. -/
theorem claim_C9_witness :
    jsTrim [' ', ' '] = [] ∧
    (performSearch (fun _ _ _ => []) false false [' ', ' '] initialHookState =
      ({ initialHookState with
         matchList := []
         searchState := { initialHookState.searchState with
                          query := [' ', ' '], currentMatch := 0,
                          totalMatches := 0 } },
       false) ∧
    setQuery (fun _ _ _ => []) [' ', ' '] initialHookState =
      { initialHookState with
        matchList := []
        searchState := { initialHookState.searchState with
                         query := [' ', ' '], currentMatch := 0,
                         totalMatches := 0 } }) :=
  ⟨by decide,
   claim_C9_empty_query_short_circuit (fun _ _ _ => []) false false
     [' ', ' '] initialHookState (by decide)⟩

/-! ## The option-toggle stale closure (C2) -/

/-- C2 (code bug): toggling `caseSensitive` with the query "A" active flips
the flag to `true`, yet the recomputed matches are those of the
case-INsensitive search (1 match), while a search under the new flag value
finds 0 matches — the scheduled `performSearch` closure captured the
pre-toggle options. -/
theorem claim_C2_toggle_uses_stale_options :
    (toggleCaseSensitive demoCaseBackend demoState).searchState.caseSensitive
      = true ∧
    (toggleCaseSensitive demoCaseBackend demoState).searchState.totalMatches
      = 1 ∧
    (toggleCaseSensitive demoCaseBackend demoState).matchList = [demoMatch] ∧
    (demoCaseBackend ['A'] true false).length = 0 := by
  decide

/-! ## The terminal adapter's navigate options (C10) -/

/-- C10: the terminal adapter's `onNavigate` always delegates to
`findNext`/`findPrevious` with `caseSensitive = false` and
`wholeWord = false` (and `regex = false`), for any live option values. -/
theorem claim_C10_terminal_navigate_ignores_options
    (activeCS activeWW : Bool) (m : SearchMatch) (dir : Direction) :
    terminalOnNavigate activeCS activeWW true (some m) dir =
      some { direction := dir, pattern := m.text,
             caseSensitive := false, wholeWord := false, regex := false } := by
  cases dir <;> rfl

/-! ## Lemmas about the pattern builder and matcher -/

theorem special_not_alnum (c : Char) (h : isRegexSpecial c = true) :
    c.isAlpha = false ∧ c.isDigit = false ∧ c ≠ 'b' := by
  unfold isRegexSpecial at h
  simp only [Bool.or_eq_true, decide_eq_true_eq] at h
  rcases h with (((((((((((((h|h)|h)|h)|h)|h)|h)|h)|h)|h)|h)|h)|h)|h) <;>
    subst h <;> exact ⟨by decide, by decide, by decide⟩

theorem not_special_facts (c : Char) (h : isRegexSpecial c = false) :
    c ≠ '\\' ∧ c ≠ '.' ∧ c ≠ '*' ∧ isUnsupportedMeta c = false := by
  unfold isRegexSpecial at h
  simp only [Bool.or_eq_false_iff, decide_eq_false_iff_not] at h
  obtain ⟨⟨⟨⟨⟨⟨⟨⟨⟨⟨⟨⟨⟨h1, h2⟩, h3⟩, h4⟩, h5⟩, h6⟩, h7⟩, h8⟩, h9⟩, h10⟩,
    h11⟩, h12⟩, h13⟩, h14⟩ := h
  refine ⟨h14, h1, h2, ?_⟩
  unfold isUnsupportedMeta
  simp only [Bool.or_eq_false_iff, decide_eq_false_iff_not]
  exact ⟨⟨⟨⟨⟨⟨⟨⟨⟨⟨h3, h4⟩, h5⟩, h6⟩, h11⟩, h9⟩, h10⟩, h12⟩, h13⟩, h7⟩, h8⟩

theorem parseRegexToks_escape_append (q tail : List Char)
    (acc : List RegexTok) :
    parseRegexToks (escapeRegExp q ++ tail) acc =
      parseRegexToks tail ((q.map RegexTok.lit).reverse ++ acc) := by
  induction q generalizing acc with
  | nil => simp [escapeRegExp]
  | cons c q ih =>
      by_cases hc : isRegexSpecial c = true
      · have hna := special_not_alnum c hc
        have hstep : escapeRegExp (c :: q) ++ tail =
            '\\' :: c :: (escapeRegExp q ++ tail) := by
          simp [escapeRegExp, hc]
        rw [hstep]
        have hparse : parseRegexToks ('\\' :: c :: (escapeRegExp q ++ tail)) acc
            = parseRegexToks (escapeRegExp q ++ tail) (RegexTok.lit c :: acc) := by
          rw [parseRegexToks.eq_def]
          simp [hna.1, hna.2.1, hna.2.2]
        rw [hparse, ih]
        simp
      · have hf := not_special_facts c (by simpa using hc)
        have hstep : escapeRegExp (c :: q) ++ tail =
            c :: (escapeRegExp q ++ tail) := by
          simp [escapeRegExp, hc]
        rw [hstep]
        have hparse : parseRegexToks (c :: (escapeRegExp q ++ tail)) acc
            = parseRegexToks (escapeRegExp q ++ tail) (RegexTok.lit c :: acc) := by
          rw [parseRegexToks.eq_def]
          simp [hf.1, hf.2.1, hf.2.2.1, hf.2.2.2]
        rw [hparse, ih]
        simp

theorem parse_createSearchRegex (q : List Char) (opts : SearchOptions) :
    parseRegexToks (createSearchRegex q opts).pattern [] =
      some (expectedToks q opts) := by
  unfold createSearchRegex expectedToks
  cases hw : opts.wholeWord with
  | false =>
      simp only [hw, Bool.false_eq_true, if_false]
      have h := parseRegexToks_escape_append q [] []
      simp only [List.append_nil] at h
      rw [h]
      rw [parseRegexToks.eq_def]
      simp
  | true =>
      simp only [hw, if_true, List.cons_append]
      have h1 : parseRegexToks ('\\' :: 'b' :: (escapeRegExp q ++ ['\\', 'b'])) []
          = parseRegexToks (escapeRegExp q ++ ['\\', 'b']) [RegexTok.wordB] := by
        rw [parseRegexToks.eq_def]
        simp
      rw [h1, parseRegexToks_escape_append]
      have h2 : parseRegexToks ['\\', 'b']
            ((q.map RegexTok.lit).reverse ++ [RegexTok.wordB]) =
          parseRegexToks []
            (RegexTok.wordB ::
              ((q.map RegexTok.lit).reverse ++ [RegexTok.wordB])) := by
        rw [parseRegexToks.eq_def]
        simp
      rw [h2]
      rw [parseRegexToks.eq_def]
      simp

theorem matchToks_nil_toks (ic : Bool) (prev : Option Char)
    (rest : List Char) : matchToks ic [] prev rest = some 0 := by
  simp [matchToks]

theorem matchToks_lit_cons (ic : Bool) (p : Char) (ts : List RegexTok)
    (prev : Option Char) (c : Char) (rest : List Char) :
    matchToks ic (RegexTok.lit p :: ts) prev (c :: rest) =
      if charMatches ic p c then (matchToks ic ts (some c) rest).map (· + 1)
      else none := by
  simp [matchToks]

theorem matchToks_lit_nil (ic : Bool) (p : Char) (ts : List RegexTok)
    (prev : Option Char) :
    matchToks ic (RegexTok.lit p :: ts) prev [] = none := by
  simp [matchToks]

theorem matchToks_wordB_cons (ic : Bool) (ts : List RegexTok)
    (prev : Option Char) (rest : List Char) :
    matchToks ic (RegexTok.wordB :: ts) prev rest =
      if isBoundary prev rest.head? then matchToks ic ts prev rest
      else none := by
  cases rest <;> simp [matchToks]

theorem matchToks_lits_append (ic : Bool) (l : List Char)
    (ts : List RegexTok) :
    ∀ (prev : Option Char) (rest : List Char),
      matchToks ic (l.map RegexTok.lit ++ ts) prev rest =
        if (rest.take l.length).map (foldChar ic) = l.map (foldChar ic) then
          (matchToks ic ts (shiftPrev prev l.length rest)
            (rest.drop l.length)).map (· + l.length)
        else none := by
  induction l with
  | nil =>
      intro prev rest
      simp [shiftPrev]
  | cons c l ih =>
      intro prev rest
      cases rest with
      | nil =>
          rw [if_neg (by simp)]
          rw [show (c :: l).map RegexTok.lit ++ ts =
              RegexTok.lit c :: (l.map RegexTok.lit ++ ts) from rfl]
          exact matchToks_lit_nil ic c _ prev
      | cons r rest' =>
          rw [show (c :: l).map RegexTok.lit ++ ts =
              RegexTok.lit c :: (l.map RegexTok.lit ++ ts) from rfl]
          rw [matchToks_lit_cons]
          by_cases hm : charMatches ic c r
          · rw [if_pos hm, ih (some r) rest']
            have hfold : foldChar ic c = foldChar ic r := by
              unfold charMatches at hm
              exact of_decide_eq_true hm
            have hsp : shiftPrev (some r) l.length rest' =
                shiftPrev prev (c :: l).length (r :: rest') := by
              unfold shiftPrev
              cases l with
              | nil => simp
              | cons d l' => simp
            by_cases ht :
                (rest'.take l.length).map (foldChar ic) = l.map (foldChar ic)
            · rw [if_pos ht, if_pos (by simp [ht, hfold.symm])]
              simp only [List.length_cons, List.drop_succ_cons]
              have hsp' : shiftPrev (some r) l.length rest' =
                  shiftPrev prev (l.length + 1) (r :: rest') := by
                rw [hsp]
                simp
              rw [hsp']
              cases matchToks ic ts (shiftPrev prev (l.length + 1) (r :: rest'))
                  (rest'.drop l.length) with
              | none => rfl
              | some v =>
                  show some (v + l.length + 1) = some (v + (l.length + 1))
                  exact congrArg some (by omega)
            · rw [if_neg ht, if_neg (by
                intro hcon
                simp only [List.length_cons, List.take_succ_cons, List.map_cons,
                  List.cons.injEq] at hcon
                exact ht hcon.2)]
              rfl
          · rw [if_neg hm, if_neg (by
              intro hcon
              simp only [List.length_cons, List.take_succ_cons, List.map_cons,
                List.cons.injEq] at hcon
              exact hm (by unfold charMatches; exact decide_eq_true hcon.1.symm))]

theorem matchToksAt_lits (ic : Bool) (q : List Char) (prev : Option Char)
    (rest : List Char) :
    matchToks ic (q.map RegexTok.lit) prev rest =
      if (rest.take q.length).map (foldChar ic) = q.map (foldChar ic)
      then some q.length else none := by
  have h := matchToks_lits_append ic q [] prev rest
  rw [List.append_nil] at h
  rw [h]
  by_cases hc :
      (rest.take q.length).map (foldChar ic) = q.map (foldChar ic)
  · rw [if_pos hc, if_pos hc, matchToks_nil_toks]
    simp
  · rw [if_neg hc, if_neg hc]

theorem head?_drop_get (l : List Char) (n : Nat) :
    (l.drop n).head? = l.get? n := by
  induction l generalizing n with
  | nil => cases n <;> simp
  | cons a l ih =>
      cases n with
      | zero => simp
      | succ n => simpa using ih n

theorem shiftPrev_prevCharAt (text : List Char) (i k : Nat) :
    shiftPrev (prevCharAt text i) k (text.drop i) = prevCharAt text (i + k) := by
  unfold shiftPrev prevCharAt
  by_cases hk : k = 0
  · subst hk
    simp
  · rw [if_neg hk, if_neg (by omega)]
    rw [List.get?_drop]
    congr 1
    omega

theorem matchToksAt_expected (q : List Char) (opts : SearchOptions)
    (text : List Char) (i : Nat) :
    matchToksAt (!opts.caseSensitive) (expectedToks q opts) text i =
      if literalOccursAt q opts text i then some q.length else none := by
  unfold matchToksAt expectedToks literalOccursAt boundaryAt
  cases hw : opts.wholeWord with
  | false =>
      simp only [hw, Bool.false_eq_true, if_false, Bool.not_false, Bool.true_or,
        Bool.and_true]
      rw [matchToksAt_lits]
      by_cases hc :
          ((text.drop i).take q.length).map (foldChar (!opts.caseSensitive)) =
            q.map (foldChar (!opts.caseSensitive))
      · rw [if_pos hc, if_pos (decide_eq_true hc)]
      · rw [if_neg hc, if_neg (fun h => hc (of_decide_eq_true h))]
  | true =>
      simp only [hw, if_true, Bool.not_true, Bool.false_or]
      rw [matchToks_wordB_cons, matchToks_lits_append, matchToks_wordB_cons,
        matchToks_nil_toks, head?_drop_get, shiftPrev_prevCharAt]
      rw [show (text.drop i).drop q.length = text.drop (i + q.length) by
        rw [List.drop_drop]]
      rw [head?_drop_get]
      by_cases hb1 : isBoundary (prevCharAt text i) (text.get? i) = true
      · by_cases hc :
            ((text.drop i).take q.length).map (foldChar (!opts.caseSensitive)) =
              q.map (foldChar (!opts.caseSensitive))
        · by_cases hb2 : isBoundary (prevCharAt text (i + q.length))
              (text.get? (i + q.length)) = true
          · rw [if_pos hb1, if_pos hc, if_pos hb2, if_pos (by
              rw [Bool.and_eq_true, Bool.and_eq_true]
              exact ⟨decide_eq_true hc, hb1, hb2⟩)]
            simp
          · rw [if_pos hb1, if_pos hc, if_neg hb2, if_neg (fun h => by
              rw [Bool.and_eq_true, Bool.and_eq_true] at h
              exact hb2 h.2.2)]
            rfl
        · rw [if_pos hb1, if_neg hc, if_neg (fun h => by
            rw [Bool.and_eq_true] at h
            exact hc (of_decide_eq_true h.1))]
      · rw [if_neg hb1, if_neg (fun h => by
          rw [Bool.and_eq_true, Bool.and_eq_true] at h
          exact hb1 h.2.1)]

/-- C6: `createSearchRegex` sets the ignore-case flag exactly when
`caseSensitive` is false, compiles the query to a pure literal token
sequence (every metacharacter escaped, so none acts as an operator),
wrapped in word-boundary assertions exactly when `wholeWord` is set; and
the compiled pattern matches at a position of a text exactly the literal
occurrences of the query (case-folded iff `caseSensitive` is false,
boundary-checked iff `wholeWord`), each with match length
`query.length`. -/
theorem claim_C6_createSearchRegex_literal (q : List Char)
    (opts : SearchOptions) (text : List Char) (i : Nat) :
    (createSearchRegex q opts).ignoreCase = (!opts.caseSensitive) ∧
    parseRegexToks (createSearchRegex q opts).pattern [] =
      some (expectedToks q opts) ∧
    regexMatchAt (createSearchRegex q opts) text i =
      (if literalOccursAt q opts text i then some q.length else none) := by
  refine ⟨rfl, parse_createSearchRegex q opts, ?_⟩
  unfold regexMatchAt
  rw [parse_createSearchRegex]
  exact matchToksAt_expected q opts text i

/-! ## Termination of the exec loop (C8) -/

theorem execFindAux_ge (ic : Bool) (toks : List RegexTok) (text : List Char) :
    ∀ (fuel i idx len : Nat),
      execFindAux ic toks text i fuel = some (idx, len) → i ≤ idx := by
  intro fuel
  induction fuel with
  | zero => intro i idx len h; exact absurd h (by simp [execFindAux])
  | succ fuel ih =>
      intro i idx len h
      rw [execFindAux] at h
      cases hm : matchToksAt ic toks text i with
      | some l =>
          rw [hm] at h
          simp only [Option.some.injEq, Prod.mk.injEq] at h
          omega
      | none =>
          rw [hm] at h
          exact Nat.le_of_succ_le (ih (i + 1) idx len h)

theorem execFind_none_of_past (ic : Bool) (toks : List RegexTok)
    (text : List Char) (start : Nat) (h : text.length + 1 ≤ start) :
    execFind ic toks text start = none := by
  unfold execFind
  rw [show text.length + 1 - start = 0 by omega]
  simp [execFindAux]

theorem findTextMatchesLoop_stable (ic : Bool) (toks : List RegexTok)
    (text eid : List Char) :
    ∀ (fuelA fuelB lastIndex : Nat) (acc : List SearchMatch),
      text.length + 2 - lastIndex ≤ fuelA →
      text.length + 2 - lastIndex ≤ fuelB →
      findTextMatchesLoop ic toks text eid lastIndex fuelA acc =
        findTextMatchesLoop ic toks text eid lastIndex fuelB acc := by
  intro fuelA
  induction fuelA with
  | zero =>
      intro fuelB lastIndex acc hA hB
      have hpast : text.length + 1 ≤ lastIndex := by omega
      cases fuelB with
      | zero => rfl
      | succ fuelB =>
          rw [findTextMatchesLoop, findTextMatchesLoop,
            execFind_none_of_past ic toks text lastIndex hpast]
  | succ fuelA ih =>
      intro fuelB lastIndex acc hA hB
      cases fuelB with
      | zero =>
          have hpast : text.length + 1 ≤ lastIndex := by omega
          rw [findTextMatchesLoop, findTextMatchesLoop,
            execFind_none_of_past ic toks text lastIndex hpast]
      | succ fuelB =>
          rw [findTextMatchesLoop, findTextMatchesLoop]
          cases hexec : execFind ic toks text lastIndex with
          | none => rfl
          | some p =>
              obtain ⟨idx, len⟩ := p
              have hge : lastIndex ≤ idx :=
                execFindAux_ge ic toks text _ lastIndex idx len hexec
              simp only []
              apply ih
              · split <;> omega
              · split <;> omega

/-- C8: the `findTextMatches` exec loop terminates: whenever `exec` finds a
match, the cursor update (`lastIndex = end`, bumped by one on a zero-length
match) strictly increases the cursor, and any fuel of at least
`text.length + 2` iterations yields the same match list as the canonical
run, so the repeated search reaches its fixpoint and cannot loop forever. -/
theorem claim_C8_findTextMatches_terminates (text query elementId : List Char)
    (opts : SearchOptions) (ic : Bool) (toks : List RegexTok)
    (start idx len : Nat)
    (hexec : execFind ic toks text start = some (idx, len))
    (fuel : Nat) (hfuel : text.length + 2 ≤ fuel) :
    start < (if idx = idx + len then idx + len + 1 else idx + len) ∧
    findTextMatchesTextFuel text query opts elementId fuel =
      findTextMatchesText text query opts elementId := by
  constructor
  · have hge : start ≤ idx :=
      execFindAux_ge ic toks text _ start idx len hexec
    split <;> omega
  · unfold findTextMatchesText findTextMatchesTextFuel
    show (match parseRegexToks (createSearchRegex query opts).pattern [] with
          | none => ([] : List SearchMatch)
          | some tks =>
              findTextMatchesLoop (createSearchRegex query opts).ignoreCase
                tks text elementId 0 fuel []) =
        (match parseRegexToks (createSearchRegex query opts).pattern [] with
          | none => ([] : List SearchMatch)
          | some tks =>
              findTextMatchesLoop (createSearchRegex query opts).ignoreCase
                tks text elementId 0 (text.length + 2) [])
    cases hp : parseRegexToks (createSearchRegex query opts).pattern [] with
    | none => rfl
    | some tks =>
        exact findTextMatchesLoop_stable _ tks text elementId fuel
          (text.length + 2) 0 [] (by omega) (by omega)

/-- Witness for C8: searching "aa" for "a". -/
theorem claim_C8_witness :
    (execFind true [RegexTok.lit 'a'] ['a', 'a'] 0 = some (0, 1) ∧
     (['a', 'a'] : List Char).length + 2 ≤ 4) ∧
    (0 < (if 0 = 0 + 1 then 0 + 1 + 1 else 0 + 1) ∧
     findTextMatchesTextFuel ['a', 'a'] ['a'] ⟨false, false⟩ ['e'] 4 =
       findTextMatchesText ['a', 'a'] ['a'] ⟨false, false⟩ ['e']) :=
  ⟨⟨by simp [execFind, execFindAux, matchToksAt, matchToks_lit_cons,
      matchToks_nil_toks, prevCharAt, charMatches, foldChar], by decide⟩,
   claim_C8_findTextMatches_terminates ['a', 'a'] ['a'] ['e'] ⟨false, false⟩
     true [RegexTok.lit 'a'] 0 0 1
     (by simp [execFind, execFindAux, matchToksAt, matchToks_lit_cons,
        matchToks_nil_toks, prevCharAt, charMatches, foldChar]) 4 (by decide)⟩

/-! ## Lemmas about the DOM model -/

theorem flatTextList_append (a b : List DomNode) :
    flatTextList (a ++ b) = flatTextList a ++ flatTextList b := by
  induction a with
  | nil => simp [flatTextList]
  | cons n ns ih => simp [flatTextList, ih]

theorem markIdsList_append (a b : List DomNode) :
    markIdsList (a ++ b) = markIdsList a ++ markIdsList b := by
  induction a with
  | nil => simp [markIdsList]
  | cons n ns ih => simp [markIdsList, ih]

theorem flatTextList_mergeAdjacent (l : List DomNode) :
    flatTextList (mergeAdjacent l) = flatTextList l := by
  induction l with
  | nil => rfl
  | cons n ns ih =>
      cases n with
      | text s =>
          rw [mergeAdjacent]
          cases hm : mergeAdjacent ns with
          | nil =>
              simp only []
              rw [hm] at ih
              by_cases hs : s = []
              · rw [if_pos hs]
                simp [flatText, flatTextList, hs, ← ih]
              · rw [if_neg hs]
                simp [flatText, flatTextList, ← ih]
          | cons n2 rest =>
              cases n2 with
              | text s2 =>
                  simp only []
                  rw [hm] at ih
                  by_cases hs : s ++ s2 = []
                  · rw [if_pos hs]
                    have h1 : s = [] ∧ s2 = [] := by
                      cases s with
                      | nil => exact ⟨rfl, by simpa using hs⟩
                      | cons c cs => exact absurd hs (by simp)
                    simp [flatText, flatTextList, ← ih, h1.1, h1.2]
                  · rw [if_neg hs]
                    simp [flatText, flatTextList, ← ih]
              | elem t cs =>
                  simp only []
                  rw [hm] at ih
                  by_cases hs : s = []
                  · rw [if_pos hs]
                    simp [flatText, flatTextList, ← ih, hs]
                  · rw [if_neg hs]
                    simp [flatText, flatTextList, ← ih]
              | mark id c cs =>
                  simp only []
                  rw [hm] at ih
                  by_cases hs : s = []
                  · rw [if_pos hs]
                    simp [flatText, flatTextList, ← ih, hs]
                  · rw [if_neg hs]
                    simp [flatText, flatTextList, ← ih]
      | elem t cs =>
          rw [show mergeAdjacent (DomNode.elem t cs :: ns) =
              DomNode.elem t cs :: mergeAdjacent ns from rfl]
          simp [flatTextList, ih]
      | mark id c cs =>
          rw [show mergeAdjacent (DomNode.mark id c cs :: ns) =
              DomNode.mark id c cs :: mergeAdjacent ns from rfl]
          simp [flatTextList, ih]

mutual

theorem flatText_normalizeNode (n : DomNode) :
    flatText (normalizeNode n) = flatText n := by
  cases n with
  | text s => rfl
  | elem t cs =>
      show flatTextList (mergeAdjacent (normalizeListAux cs)) = flatTextList cs
      rw [flatTextList_mergeAdjacent, flatTextList_normalizeListAux cs]
  | mark id c cs =>
      show flatTextList (mergeAdjacent (normalizeListAux cs)) = flatTextList cs
      rw [flatTextList_mergeAdjacent, flatTextList_normalizeListAux cs]

theorem flatTextList_normalizeListAux (ns : List DomNode) :
    flatTextList (normalizeListAux ns) = flatTextList ns := by
  cases ns with
  | nil => rfl
  | cons n ns =>
      show flatText (normalizeNode n) ++ flatTextList (normalizeListAux ns) =
        flatText n ++ flatTextList ns
      rw [flatText_normalizeNode n, flatTextList_normalizeListAux ns]

end

theorem flatTextList_normalizeList (ns : List DomNode) :
    flatTextList (normalizeList ns) = flatTextList ns := by
  unfold normalizeList
  rw [flatTextList_mergeAdjacent, flatTextList_normalizeListAux]

mutual

theorem flatText_remHNode (n : DomNode) :
    flatText (remHNode n) = flatText n := by
  cases n with
  | text s => rfl
  | elem t cs =>
      show flatTextList (remHList cs) = flatTextList cs
      exact flatTextList_remHList cs
  | mark id c cs => rfl

theorem flatTextList_remHList (ns : List DomNode) :
    flatTextList (remHList ns) = flatTextList ns := by
  cases ns with
  | nil => rfl
  | cons n ns =>
      show flatText (remHNode n) ++ flatTextList (remHList ns) =
        flatText n ++ flatTextList ns
      rw [flatText_remHNode n, flatTextList_remHList ns]

end

mutual

theorem flatText_removeHighlightsNode (n : DomNode) :
    flatText (removeHighlightsNode n) = flatText n := by
  cases n with
  | text s => rfl
  | elem t cs =>
      show flatTextList
        (if cs.any isMark then normalizeList (remHList cs)
         else removeHighlightsListAux cs) = flatTextList cs
      by_cases hm : cs.any isMark
      · rw [if_pos hm, flatTextList_normalizeList, flatTextList_remHList]
      · rw [if_neg hm]
        exact flatTextList_removeHighlightsListAux cs
  | mark id c cs => rfl

theorem flatTextList_removeHighlightsListAux (ns : List DomNode) :
    flatTextList (removeHighlightsListAux ns) = flatTextList ns := by
  cases ns with
  | nil => rfl
  | cons n ns =>
      show flatText (removeHighlightsNode n) ++
          flatTextList (removeHighlightsListAux ns) =
        flatText n ++ flatTextList ns
      rw [flatText_removeHighlightsNode n,
        flatTextList_removeHighlightsListAux ns]

end

theorem flatTextList_removeHighlightsList (ns : List DomNode) :
    flatTextList (removeHighlightsList ns) = flatTextList ns := by
  unfold removeHighlightsList
  by_cases hm : ns.any isMark
  · rw [if_pos hm, flatTextList_normalizeList, flatTextList_remHList]
  · rw [if_neg hm]
    exact flatTextList_removeHighlightsListAux ns

mutual

theorem markFree_remHNode (n : DomNode) :
    markFreeNode (remHNode n) = true := by
  cases n with
  | text s => rfl
  | elem t cs =>
      show markFreeList (remHList cs) = true
      exact markFree_remHList cs
  | mark id c cs => rfl

theorem markFree_remHList (ns : List DomNode) :
    markFreeList (remHList ns) = true := by
  cases ns with
  | nil => rfl
  | cons n ns =>
      show (markFreeNode (remHNode n) && markFreeList (remHList ns)) = true
      rw [markFree_remHNode n, markFree_remHList ns]
      rfl

end

theorem markFreeList_mergeAdjacent (l : List DomNode) :
    markFreeList (mergeAdjacent l) = markFreeList l := by
  induction l with
  | nil => rfl
  | cons n ns ih =>
      cases n with
      | text s =>
          rw [mergeAdjacent]
          cases hm : mergeAdjacent ns with
          | nil =>
              simp only []
              rw [hm] at ih
              by_cases hs : s = []
              · rw [if_pos hs]
                simp [markFreeNode, markFreeList, ← ih]
              · rw [if_neg hs]
                simp [markFreeNode, markFreeList, ← ih]
          | cons n2 rest =>
              cases n2 with
              | text s2 =>
                  simp only []
                  rw [hm] at ih
                  by_cases hs : s ++ s2 = []
                  · rw [if_pos hs]
                    simp [markFreeNode, markFreeList, ← ih]
                  · rw [if_neg hs]
                    simp [markFreeNode, markFreeList, ← ih]
              | elem t cs =>
                  simp only []
                  rw [hm] at ih
                  by_cases hs : s = []
                  · rw [if_pos hs]
                    simp [markFreeNode, markFreeList, ← ih]
                  · rw [if_neg hs]
                    simp [markFreeNode, markFreeList, ← ih]
              | mark id c cs =>
                  simp only []
                  rw [hm] at ih
                  by_cases hs : s = []
                  · rw [if_pos hs]
                    simp [markFreeNode, markFreeList, ← ih]
                  · rw [if_neg hs]
                    simp [markFreeNode, markFreeList, ← ih]
      | elem t cs =>
          rw [show mergeAdjacent (DomNode.elem t cs :: ns) =
              DomNode.elem t cs :: mergeAdjacent ns from rfl]
          simp [markFreeList, ih]
      | mark id c cs =>
          rw [show mergeAdjacent (DomNode.mark id c cs :: ns) =
              DomNode.mark id c cs :: mergeAdjacent ns from rfl]
          simp [markFreeList, ih]

mutual

theorem markFreeNode_normalizeNode (n : DomNode) :
    markFreeNode (normalizeNode n) = markFreeNode n := by
  cases n with
  | text s => rfl
  | elem t cs =>
      show markFreeList (mergeAdjacent (normalizeListAux cs)) = markFreeList cs
      rw [markFreeList_mergeAdjacent, markFreeList_normalizeListAux cs]
  | mark id c cs => rfl

theorem markFreeList_normalizeListAux (ns : List DomNode) :
    markFreeList (normalizeListAux ns) = markFreeList ns := by
  cases ns with
  | nil => rfl
  | cons n ns =>
      show (markFreeNode (normalizeNode n) &&
          markFreeList (normalizeListAux ns)) =
        (markFreeNode n && markFreeList ns)
      rw [markFreeNode_normalizeNode n, markFreeList_normalizeListAux ns]

end

mutual

theorem markFree_removeHighlightsNode (n : DomNode) :
    markFreeNode (removeHighlightsNode n) = true := by
  cases n with
  | text s => rfl
  | elem t cs =>
      show markFreeList
        (if cs.any isMark then normalizeList (remHList cs)
         else removeHighlightsListAux cs) = true
      by_cases hm : cs.any isMark
      · rw [if_pos hm]
        unfold normalizeList
        rw [markFreeList_mergeAdjacent, markFreeList_normalizeListAux,
          markFree_remHList]
      · rw [if_neg hm]
        exact markFree_removeHighlightsListAux cs
  | mark id c cs => rfl

theorem markFree_removeHighlightsListAux (ns : List DomNode) :
    markFreeList (removeHighlightsListAux ns) = true := by
  cases ns with
  | nil => rfl
  | cons n ns =>
      show (markFreeNode (removeHighlightsNode n) &&
          markFreeList (removeHighlightsListAux ns)) = true
      rw [markFree_removeHighlightsNode n,
        markFree_removeHighlightsListAux ns]
      rfl

end

theorem markFree_removeHighlightsList (ns : List DomNode) :
    markFreeList (removeHighlightsList ns) = true := by
  unfold removeHighlightsList
  by_cases hm : ns.any isMark
  · rw [if_pos hm]
    unfold normalizeList
    rw [markFreeList_mergeAdjacent, markFreeList_normalizeListAux,
      markFree_remHList]
  · rw [if_neg hm]
    exact markFree_removeHighlightsListAux ns

mutual

theorem markIds_of_markFreeNode (n : DomNode) (h : markFreeNode n = true) :
    markIdsNode n = [] := by
  cases n with
  | text s => rfl
  | elem t cs =>
      show markIdsList cs = []
      exact markIds_of_markFreeList cs h
  | mark id c cs => exact absurd h (by simp [markFreeNode])

theorem markIds_of_markFreeList (ns : List DomNode)
    (h : markFreeList ns = true) : markIdsList ns = [] := by
  cases ns with
  | nil => rfl
  | cons n ns =>
      have h2 : markFreeNode n = true ∧ markFreeList ns = true := by
        have : (markFreeNode n && markFreeList ns) = true := h
        exact ⟨by
          cases hx : markFreeNode n
          · rw [hx] at this
            exact absurd this (by simp)
          · rfl,
          by
          cases hx : markFreeList ns
          · rw [hx] at this
            simp at this
          · rfl⟩
      show markIdsNode n ++ markIdsList ns = []
      rw [markIds_of_markFreeNode n h2.1, markIds_of_markFreeList ns h2.2]
      rfl

end

mutual

theorem markFree_id_node (n : DomNode) (h : markFreeNode n = true) :
    removeHighlightsNode n = n := by
  cases n with
  | text s => rfl
  | elem t cs =>
      have hcs : markFreeList cs = true := h
      have hany : cs.any isMark = false := any_isMark_of_markFree cs hcs
      show DomNode.elem t
        (if cs.any isMark then normalizeList (remHList cs)
         else removeHighlightsListAux cs) = DomNode.elem t cs
      rw [hany]
      simp only [Bool.false_eq_true, if_false]
      rw [markFree_id_list cs hcs]
  | mark id c cs => exact absurd h (by simp [markFreeNode])

theorem markFree_id_list (ns : List DomNode) (h : markFreeList ns = true) :
    removeHighlightsListAux ns = ns := by
  cases ns with
  | nil => rfl
  | cons n ns =>
      have h2 : markFreeNode n = true ∧ markFreeList ns = true := by
        have hb : (markFreeNode n && markFreeList ns) = true := h
        constructor
        · cases hx : markFreeNode n
          · rw [hx] at hb
            exact absurd hb (by simp)
          · rfl
        · cases hx : markFreeList ns
          · rw [hx] at hb
            simp at hb
          · rfl
      show removeHighlightsNode n :: removeHighlightsListAux ns = n :: ns
      rw [markFree_id_node n h2.1, markFree_id_list ns h2.2]

theorem any_isMark_of_markFree (ns : List DomNode)
    (h : markFreeList ns = true) : ns.any isMark = false := by
  cases ns with
  | nil => rfl
  | cons n ns =>
      have hb : (markFreeNode n && markFreeList ns) = true := h
      have h2 : markFreeNode n = true ∧ markFreeList ns = true := by
        constructor
        · cases hx : markFreeNode n
          · rw [hx] at hb
            exact absurd hb (by simp)
          · rfl
        · cases hx : markFreeList ns
          · rw [hx] at hb
            simp at hb
          · rfl
      rw [List.any_cons]
      have hn : isMark n = false := by
        cases n with
        | text s => rfl
        | elem t cs => rfl
        | mark id c cs => exact absurd h2.1 (by simp [markFreeNode])
      rw [hn, any_isMark_of_markFree ns h2.2]
      rfl

end

theorem removeHighlightsList_of_markFree (ns : List DomNode)
    (h : markFreeList ns = true) : removeHighlightsList ns = ns := by
  unfold removeHighlightsList
  rw [any_isMark_of_markFree ns h]
  simp only [Bool.false_eq_true, if_false]
  exact markFree_id_list ns h

theorem jsSubstring_split (s : List Char) (a b : Nat) (hab : a ≤ b)
    (hb : b ≤ s.length) :
    jsSubstring s 0 a ++ (jsSubstring s a b ++ jsSubstring s b s.length) =
      s := by
  unfold jsSubstring
  simp only []
  rw [show min 0 s.length = 0 from by simp]
  rw [Nat.min_eq_left (hab.trans hb), Nat.min_eq_left hb,
    Nat.min_eq_left (Nat.le_refl s.length)]
  rw [show max 0 a = a from by simp, show min 0 a = 0 from by simp]
  rw [Nat.max_eq_right hab, Nat.min_eq_left hab]
  rw [Nat.max_eq_right hb, Nat.min_eq_left hb]
  rw [List.drop_zero, List.take_length]
  rw [show (s.take b).drop a = (s.take b).drop a from rfl]
  rw [← List.append_assoc]
  rw [show s.take a = (s.take b).take a from by
    rw [List.take_take, Nat.min_eq_left hab]]
  rw [List.take_append_drop, List.take_append_drop]

theorem chosen_match_spec (ms : List SearchMatch) (pred : SearchMatch → Bool)
    (m : SearchMatch)
    (h : (((sortByStartDesc ms).filter pred).reverse).head? = some m) :
    m ∈ ms ∧ pred m = true ∧
    ∀ m' ∈ ms, pred m' = true → m.startIndex ≤ m'.startIndex := by
  have hperm : List.Perm (sortByStartDesc ms) ms := List.perm_insertionSort _ ms
  have hsorted : List.Pairwise matchGE (sortByStartDesc ms) :=
    List.sorted_insertionSort matchGE ms
  have hsf : List.Pairwise matchGE ((sortByStartDesc ms).filter pred) :=
    List.Pairwise.filter pred hsorted
  have hrev : List.Pairwise (fun a b => matchGE b a)
      (((sortByStartDesc ms).filter pred).reverse) := by
    rw [List.pairwise_reverse]
    exact hsf
  obtain ⟨tl, htl⟩ :
      ∃ tl, ((sortByStartDesc ms).filter pred).reverse = m :: tl := by
    cases hx : ((sortByStartDesc ms).filter pred).reverse with
    | nil => rw [hx] at h; exact absurd h (by simp)
    | cons a tl =>
        rw [hx] at h
        simp only [List.head?_cons, Option.some.injEq] at h
        subst h
        exact ⟨tl, rfl⟩
  have hmem : m ∈ (sortByStartDesc ms).filter pred := by
    rw [← List.mem_reverse, htl]
    exact List.mem_cons_self m tl
  have hms : m ∈ ms := hperm.subset (List.mem_of_mem_filter hmem)
  have hpred : pred m = true := List.of_mem_filter hmem
  refine ⟨hms, hpred, ?_⟩
  intro m' hm' hpred'
  have hm'f : m' ∈ ((sortByStartDesc ms).filter pred).reverse := by
    rw [List.mem_reverse]
    exact List.mem_filter.mpr ⟨hperm.symm.subset hm', hpred'⟩
  rw [htl] at hm'f
  rcases List.mem_cons.mp hm'f with heq | htail
  · rw [heq]
  · rw [htl] at hrev
    exact (List.pairwise_cons.mp hrev).1 m' htail

theorem chosen_match_none (ms : List SearchMatch) (pred : SearchMatch → Bool)
    (h : (((sortByStartDesc ms).filter pred).reverse).head? = none) :
    ∀ m' ∈ ms, pred m' = false := by
  have hperm : List.Perm (sortByStartDesc ms) ms := List.perm_insertionSort _ ms
  have hnil : (sortByStartDesc ms).filter pred = [] := by
    have := List.head?_eq_none_iff.mp h
    simpa using this
  intro m' hm'
  cases hp : pred m' with
  | false => rfl
  | true =>
      have : m' ∈ (sortByStartDesc ms).filter pred :=
        List.mem_filter.mpr ⟨hperm.symm.subset hm', hp⟩
      rw [hnil] at this
      exact absurd this (by simp)

theorem applyNode_text_eq (sorted ms : List SearchMatch) (cur : Option Nat)
    (s : List Char) (off : Nat) :
    applyNode sorted ms cur (DomNode.text s) off =
      (match ((sorted.filter (fun m =>
          off ≤ m.startIndex && m.endIndex ≤ off + s.length)).reverse).head? with
      | none => ([DomNode.text s], off + s.length)
      | some m =>
          ((if jsSubstring s 0 (m.startIndex - off) = [] then []
            else [DomNode.text (jsSubstring s 0 (m.startIndex - off))]) ++
           DomNode.mark m.id (isCurrentFlag ms cur m)
             [DomNode.text
               (jsSubstring s (m.startIndex - off) (m.endIndex - off))] ::
           (if jsSubstring s (m.endIndex - off) s.length = [] then []
            else [DomNode.text (jsSubstring s (m.endIndex - off) s.length)]),
           off + s.length)) := rfl

theorem markFree_cons_split (n : DomNode) (ns : List DomNode)
    (h : markFreeList (n :: ns) = true) :
    markFreeNode n = true ∧ markFreeList ns = true := by
  have hb : (markFreeNode n && markFreeList ns) = true := h
  rw [Bool.and_eq_true] at hb
  exact hb

theorem flatTextList_pieces (b mid a i : List Char) (c : Bool) :
    flatTextList ((if b = [] then [] else [DomNode.text b]) ++
      DomNode.mark i c [DomNode.text mid] ::
      (if a = [] then [] else [DomNode.text a])) = b ++ (mid ++ a) := by
  by_cases hb : b = [] <;> by_cases ha : a = [] <;>
    simp [hb, ha, flatTextList, flatText, flatTextList_append]

theorem markIds_pieces (b mid a i : List Char) (c : Bool) :
    markIdsList ((if b = [] then [] else [DomNode.text b]) ++
      DomNode.mark i c [DomNode.text mid] ::
      (if a = [] then [] else [DomNode.text a])) = [i] := by
  by_cases hb : b = [] <;> by_cases ha : a = [] <;>
    simp [hb, ha, markIdsList, markIdsNode, markIdsList_append]

mutual

theorem applyNode_spec (ms : List SearchMatch) (cur : Option Nat)
    (hwf : ∀ m ∈ ms, m.startIndex ≤ m.endIndex) (n : DomNode)
    (hmf : markFreeNode n = true) (off : Nat) :
    (applyNode (sortByStartDesc ms) ms cur n off).2 =
      off + (flatText n).length ∧
    flatTextList (applyNode (sortByStartDesc ms) ms cur n off).1 =
      flatText n ∧
    (markIdsList (applyNode (sortByStartDesc ms) ms cur n off).1).length =
      ((leafSpansNode n off).filter
        (fun p => ms.any (fun m => withinSpan m p))).length ∧
    (∀ id ∈ markIdsList (applyNode (sortByStartDesc ms) ms cur n off).1,
      ∃ p ∈ leafSpansNode n off, ∃ m ∈ ms, m.id = id ∧
        withinSpan m p = true ∧
        ∀ m' ∈ ms, withinSpan m' p = true →
          m.startIndex ≤ m'.startIndex) := by
  cases n with
  | text s =>
      rw [applyNode_text_eq]
      cases hh : (((sortByStartDesc ms).filter (fun m =>
          off ≤ m.startIndex && m.endIndex ≤ off + s.length)).reverse).head? with
      | none =>
          have hnone := chosen_match_none ms _ hh
          have hany : ms.any (fun m => withinSpan m (off, s.length)) = false := by
            rw [List.any_eq_false]
            intro m hm
            have hfalse := hnone m hm
            rw [show withinSpan m (off, s.length) =
                (decide (off ≤ m.startIndex) &&
                 decide (m.endIndex ≤ off + s.length)) from rfl, hfalse]
            simp
          refine ⟨rfl, by simp [flatTextList, flatText], ?_, ?_⟩
          · show (markIdsList [DomNode.text s]).length =
              ((leafSpansNode (DomNode.text s) off).filter
                (fun p => ms.any (fun m => withinSpan m p))).length
            rw [show leafSpansNode (DomNode.text s) off = [(off, s.length)]
              from rfl]
            simp [markIdsList, markIdsNode, List.filter, hany]
          · intro id hid
            simp [markIdsList, markIdsNode] at hid
      | some m =>
          obtain ⟨hms, hpred, hmin⟩ := chosen_match_spec ms _ m hh
          have hse : off ≤ m.startIndex ∧ m.endIndex ≤ off + s.length := by
            simpa [Bool.and_eq_true, decide_eq_true_eq] using hpred
          have hab : m.startIndex - off ≤ m.endIndex - off :=
            Nat.sub_le_sub_right (hwf m hms) off
          have hbl : m.endIndex - off ≤ s.length := by omega
          have hsplit := jsSubstring_split s (m.startIndex - off)
            (m.endIndex - off) hab hbl
          have hwithin : withinSpan m (off, s.length) = true := hpred
          have hany : ms.any (fun m => withinSpan m (off, s.length)) = true :=
            List.any_eq_true.mpr ⟨m, hms, hwithin⟩
          refine ⟨rfl, ?_, ?_, ?_⟩
          · rw [flatTextList_pieces]
            exact hsplit
          · rw [markIds_pieces]
            rw [show leafSpansNode (DomNode.text s) off = [(off, s.length)]
              from rfl]
            simp [List.filter, hany]
          · intro id hid
            rw [markIds_pieces] at hid
            simp only [List.mem_singleton] at hid
            refine ⟨(off, s.length), by
              rw [show leafSpansNode (DomNode.text s) off = [(off, s.length)]
                from rfl]
              exact List.mem_singleton.mpr rfl, m, hms, hid.symm, hwithin, ?_⟩
            intro m' hm' hw'
            exact hmin m' hm' hw'
  | elem t cs =>
      have h := applyNodes_spec ms cur hwf cs hmf off
      refine ⟨h.1, ?_, ?_, ?_⟩
      · show flatTextList (applyNodes (sortByStartDesc ms) ms cur cs off).1 ++
            flatTextList [] = flatTextList cs
        rw [h.2.1]
        simp [flatTextList]
      · show (markIdsList (applyNodes (sortByStartDesc ms) ms cur cs off).1 ++
            markIdsList []).length = _
        rw [show markIdsList ([] : List DomNode) = [] from rfl,
          List.append_nil]
        exact h.2.2.1
      · intro id hid
        have hid2 : id ∈ markIdsList
            (applyNodes (sortByStartDesc ms) ms cur cs off).1 ++
            ([] : List (List Char)) := hid
        rw [List.append_nil] at hid2
        exact h.2.2.2 id hid2
  | mark mid c cs =>
      exact absurd hmf (by simp [markFreeNode])

theorem applyNodes_spec (ms : List SearchMatch) (cur : Option Nat)
    (hwf : ∀ m ∈ ms, m.startIndex ≤ m.endIndex) (ns : List DomNode)
    (hmf : markFreeList ns = true) (off : Nat) :
    (applyNodes (sortByStartDesc ms) ms cur ns off).2 =
      off + (flatTextList ns).length ∧
    flatTextList (applyNodes (sortByStartDesc ms) ms cur ns off).1 =
      flatTextList ns ∧
    (markIdsList (applyNodes (sortByStartDesc ms) ms cur ns off).1).length =
      ((leafSpansList ns off).filter
        (fun p => ms.any (fun m => withinSpan m p))).length ∧
    (∀ id ∈ markIdsList (applyNodes (sortByStartDesc ms) ms cur ns off).1,
      ∃ p ∈ leafSpansList ns off, ∃ m ∈ ms, m.id = id ∧
        withinSpan m p = true ∧
        ∀ m' ∈ ms, withinSpan m' p = true →
          m.startIndex ≤ m'.startIndex) := by
  cases ns with
  | nil =>
      refine ⟨rfl, rfl, rfl, ?_⟩
      intro id hid
      exact absurd hid (by simp [markIdsList])
  | cons n ns =>
      obtain ⟨hmf1, hmf2⟩ := markFree_cons_split n ns hmf
      have h1 := applyNode_spec ms cur hwf n hmf1 off
      have h2 := applyNodes_spec ms cur hwf ns hmf2
        (applyNode (sortByStartDesc ms) ms cur n off).2
      rw [h1.1] at h2
      have hgoal1 : applyNodes (sortByStartDesc ms) ms cur (n :: ns) off =
          ((applyNode (sortByStartDesc ms) ms cur n off).1 ++
           (applyNodes (sortByStartDesc ms) ms cur ns
             (applyNode (sortByStartDesc ms) ms cur n off).2).1,
           (applyNodes (sortByStartDesc ms) ms cur ns
             (applyNode (sortByStartDesc ms) ms cur n off).2).2) := rfl
      have hspans : leafSpansList (n :: ns) off =
          leafSpansNode n off ++
          leafSpansList ns (off + (flatText n).length) := rfl
      rw [hgoal1, h1.1, hspans]
      refine ⟨?_, ?_, ?_, ?_⟩
      · show (applyNodes (sortByStartDesc ms) ms cur ns
            (off + (flatText n).length)).2 = _
        rw [h2.1]
        show off + (flatText n).length + (flatTextList ns).length =
          off + (flatText n ++ flatTextList ns).length
        rw [List.length_append]
        omega
      · rw [flatTextList_append, h1.2.1, h2.2.1]
        rfl
      · rw [markIdsList_append, List.length_append, h1.2.2.1, h2.2.2.1,
          List.filter_append, List.length_append]
      · intro id hid
        rw [markIdsList_append, List.mem_append] at hid
        cases hid with
        | inl hid1 =>
            obtain ⟨p, hp, m, hm, hrest⟩ := h1.2.2.2 id hid1
            exact ⟨p, List.mem_append_left _ hp, m, hm, hrest⟩
        | inr hid2 =>
            obtain ⟨p, hp, m, hm, hrest⟩ := h2.2.2.2 id hid2
            exact ⟨p, List.mem_append_right _ hp, m, hm, hrest⟩

end

/-! ## The highlight renderer claims (C1, C3, C7) -/

/-- C1 counterexample: on a single text node "abab" with the two
well-formed, within-node matches m1 = [0,1) and m2 = [2,3),
`highlightMatches` produces exactly one decoration (for m1); no decoration
tagged m2 exists, contradicting "one decoration per within-node match"
(the loop breaks after the first match per text node). -/
theorem claim_C1_counterexample :
    (cexMatch1.startIndex ≤ cexMatch1.endIndex ∧
     cexMatch2.startIndex ≤ cexMatch2.endIndex ∧
     withinSomeLeafList cexTree cexMatch1 = true ∧
     withinSomeLeafList cexTree cexMatch2 = true) ∧
    markIdsNode
      (highlightMatches ['d'] cexTree [cexMatch1, cexMatch2] (some 0)) =
      [['m', '1']] ∧
    ¬ ['m', '2'] ∈ markIdsNode
      (highlightMatches ['d'] cexTree [cexMatch1, cexMatch2] (some 0)) := by
  decide

/-- C1 (amended): for every element and every list of well-formed matches
each lying within a single text node, `highlightMatches` preserves the flat
text character for character, and produces exactly one decoration per
text node that contains at least one match — tagged with the id of a
match of minimal start index within that node (further within-node matches
are left undecorated). -/
theorem claim_C1_first_match_per_node_decorated (tag : List Char)
    (children : List DomNode) (ms : List SearchMatch) (cur : Option Nat)
    (hwf : ∀ m ∈ ms, m.startIndex ≤ m.endIndex)
    (hin : ∀ m ∈ ms, withinSomeLeafList children m = true)
    (hmf : markFreeList children = true) :
    flatText (highlightMatches tag children ms cur) = flatTextList children ∧
    (markIdsNode (highlightMatches tag children ms cur)).length =
      ((leafSpansList children 0).filter
        (fun p => ms.any (fun m => withinSpan m p))).length ∧
    (∀ id ∈ markIdsNode (highlightMatches tag children ms cur),
      ∃ p ∈ leafSpansList children 0, ∃ m ∈ ms, m.id = id ∧
        withinSpan m p = true ∧
        ∀ m' ∈ ms, withinSpan m' p = true →
          m.startIndex ≤ m'.startIndex) := by
  unfold highlightMatches
  rw [removeHighlightsList_of_markFree children hmf]
  by_cases hms : ms.length = 0
  · rw [if_pos hms]
    have hempty : ms = [] := List.length_eq_zero.mp hms
    subst hempty
    have hfil : (leafSpansList children 0).filter
        (fun p => ([] : List SearchMatch).any (fun m => withinSpan m p)) = [] := by
      induction leafSpansList children 0 with
      | nil => rfl
      | cons p ps ih => simpa [List.filter] using ih
    refine ⟨rfl, ?_, ?_⟩
    · show (markIdsList children).length = _
      rw [markIds_of_markFreeList children hmf, hfil]
      rfl
    · intro id hid
      have hid2 : id ∈ markIdsList children := hid
      rw [markIds_of_markFreeList children hmf] at hid2
      exact absurd hid2 (by simp)
  · rw [if_neg hms]
    have h := applyNodes_spec ms cur hwf children hmf 0
    exact ⟨h.2.1, h.2.2.1, h.2.2.2⟩

/-- Witness for the amended C1 at two leaves with one match each. -/
theorem claim_C1_witness :
    ((∀ m ∈ [cexMatch1, cexMatch2], m.startIndex ≤ m.endIndex) ∧
     (∀ m ∈ [cexMatch1, cexMatch2],
        withinSomeLeafList witTree m = true) ∧
     markFreeList witTree = true) ∧
    (flatText (highlightMatches ['d'] witTree [cexMatch1, cexMatch2] none) =
      flatTextList witTree ∧
    (markIdsNode
        (highlightMatches ['d'] witTree [cexMatch1, cexMatch2] none)).length =
      ((leafSpansList witTree 0).filter
        (fun p => [cexMatch1, cexMatch2].any (fun m => withinSpan m p))).length ∧
    (∀ id ∈ markIdsNode
        (highlightMatches ['d'] witTree [cexMatch1, cexMatch2] none),
      ∃ p ∈ leafSpansList witTree 0, ∃ m ∈ [cexMatch1, cexMatch2],
        m.id = id ∧ withinSpan m p = true ∧
        ∀ m' ∈ [cexMatch1, cexMatch2], withinSpan m' p = true →
          m.startIndex ≤ m'.startIndex)) :=
  ⟨⟨by decide, by decide, by decide⟩,
   claim_C1_first_match_per_node_decorated ['d'] witTree
     [cexMatch1, cexMatch2] none (by decide) (by decide) (by decide)⟩

/-- C3: a match whose span crosses a leaf boundary (it lies within no
single text leaf) is still returned by the backend search and counted in
`totalMatches` and held in the match list for navigation, but
`highlightMatches` creates no decoration carrying its id in any leaf. -/
theorem claim_C3_cross_leaf_counted_but_undecorated (tag : List Char)
    (children : List DomNode) (ms : List SearchMatch) (cur : Option Nat)
    (m : SearchMatch) (onSearch : Backend) (q : List Char) (st : HookState)
    (hm : m ∈ ms)
    (hcross : withinSomeLeafList children m = false)
    (hmf : markFreeList children = true)
    (hwf : ∀ m' ∈ ms, m'.startIndex ≤ m'.endIndex)
    (hid : ∀ m' ∈ ms, m'.id = m.id → m' = m)
    (hq : ¬ jsTrim q = [])
    (hOn : onSearch q st.searchState.caseSensitive st.searchState.wholeWord
      = ms) :
    (setQuery onSearch q st).searchState.totalMatches = ms.length ∧
    m ∈ (setQuery onSearch q st).matchList ∧
    ¬ m.id ∈ markIdsNode (highlightMatches tag children ms cur) := by
  refine ⟨?_, ?_, ?_⟩
  · unfold setQuery performSearch
    rw [if_neg hq]
    show (onSearch q st.searchState.caseSensitive
      st.searchState.wholeWord).length = ms.length
    rw [hOn]
  · unfold setQuery performSearch
    rw [if_neg hq]
    show m ∈ onSearch q st.searchState.caseSensitive st.searchState.wholeWord
    rw [hOn]
    exact hm
  · intro hmem
    unfold highlightMatches at hmem
    rw [removeHighlightsList_of_markFree children hmf] at hmem
    by_cases hms : ms.length = 0
    · rw [if_pos hms] at hmem
      have hmem2 : m.id ∈ markIdsList children := hmem
      rw [markIds_of_markFreeList children hmf] at hmem2
      exact absurd hmem2 (by simp)
    · rw [if_neg hms] at hmem
      have h := applyNodes_spec ms cur hwf children hmf 0
      have hmem2 : m.id ∈ markIdsList
          (applyNodes (sortByStartDesc ms) ms cur children 0).1 := hmem
      obtain ⟨p, hp, m', hm', hideq, hwn, _⟩ := h.2.2.2 _ hmem2
      have heq : m' = m := hid m' hm' hideq
      subst heq
      have hwithin : withinSomeLeafList children m' = true := by
        unfold withinSomeLeafList
        exact List.any_eq_true.mpr ⟨p, hp, hwn⟩
      rw [hcross] at hwithin
      exact absurd hwithin (by simp)

/-- Witness for C3: "ba" across two adjacent "ab" leaves. -/
theorem claim_C3_witness :
    (crossMatch ∈ [crossMatch] ∧
     withinSomeLeafList [DomNode.text ['a', 'b'], DomNode.text ['a', 'b']]
       crossMatch = false ∧
     markFreeList [DomNode.text ['a', 'b'], DomNode.text ['a', 'b']] = true ∧
     ¬ jsTrim ['x'] = []) ∧
    ((setQuery (fun _ _ _ => [crossMatch]) ['x']
        initialHookState).searchState.totalMatches = 1 ∧
     crossMatch ∈ (setQuery (fun _ _ _ => [crossMatch]) ['x']
        initialHookState).matchList ∧
     ¬ crossMatch.id ∈ markIdsNode (highlightMatches ['d']
        [DomNode.text ['a', 'b'], DomNode.text ['a', 'b']]
        [crossMatch] none)) :=
  ⟨⟨by decide, by decide, by decide, by decide⟩,
   claim_C3_cross_leaf_counted_but_undecorated ['d']
     [DomNode.text ['a', 'b'], DomNode.text ['a', 'b']] [crossMatch] none
     crossMatch (fun _ _ _ => [crossMatch]) ['x'] initialHookState
     (by decide) (by decide) (by decide) (by decide) (by decide)
     (by decide) rfl⟩

/-- C7: applying `highlightMatches` and then `removeHighlights` reproduces
the element's flat text character for character and leaves no decoration
spans, for any list of well-formed matches each lying within a single
leaf. -/
theorem claim_C7_round_trip (tag : List Char) (children : List DomNode)
    (ms : List SearchMatch) (cur : Option Nat)
    (hwf : ∀ m ∈ ms, m.startIndex ≤ m.endIndex ∧
      withinSomeLeafList children m = true) :
    flatText (removeHighlightsNode (highlightMatches tag children ms cur)) =
      flatTextList children ∧
    markIdsNode (removeHighlightsNode (highlightMatches tag children ms cur))
      = [] := by
  constructor
  · rw [flatText_removeHighlightsNode]
    unfold highlightMatches
    by_cases hms : ms.length = 0
    · rw [if_pos hms]
      show flatTextList (removeHighlightsList children) = _
      exact flatTextList_removeHighlightsList children
    · rw [if_neg hms]
      show flatTextList (applyNodes (sortByStartDesc ms) ms cur
        (removeHighlightsList children) 0).1 = _
      have h := applyNodes_spec ms cur (fun m hm => (hwf m hm).1)
        (removeHighlightsList children)
        (markFree_removeHighlightsList children) 0
      rw [h.2.1, flatTextList_removeHighlightsList]
  · exact markIds_of_markFreeNode _ (markFree_removeHighlightsNode _)

/-- Witness for C7 on a small two-leaf element with one decorated match. -/
theorem claim_C7_witness :
    (∀ m ∈ [cexMatch1], m.startIndex ≤ m.endIndex ∧
      withinSomeLeafList witTree m = true) ∧
    (flatText (removeHighlightsNode
        (highlightMatches ['d'] witTree [cexMatch1] (some 0))) =
      flatTextList witTree ∧
    markIdsNode (removeHighlightsNode
        (highlightMatches ['d'] witTree [cexMatch1] (some 0))) = []) :=
  ⟨by decide,
   claim_C7_round_trip ['d'] witTree [cexMatch1] (some 0) (by decide)⟩

end Crystal
